import Mathlib

/-
Verification of the bank2je statement-normalization core against its
natural-language specification.

The TypeScript sources under src/lib are shallowly embedded below.  JavaScript
semantics are modelled as follows:
- strings are Lean String values (code-unit lengths are computed with an
  explicit UTF-16 length function where the source uses .length);
- JS number arithmetic is modelled with exact rationals; doubles in the ranges
  the program manipulates (scores in [0,1], cent counts) are exact, and the
  documented 10^21 threshold of Number.prototype.toFixed is modelled explicitly;
- the Number(string) coercion is modelled on the decimal-literal grammar
  (sign, digits, fraction, exponent); hex/octal/binary and Infinity forms of
  the coercion are not modelled, and NaN is modelled as Option.none;
- regular expressions from the sources are modelled by hand-written matchers
  that mirror the anchored patterns including their backtracking behaviour.
-/

set_option maxRecDepth 4000

namespace Bank2JE

/-! ### JavaScript string primitives -/

/-- Whitespace class of JS (regex backslash-s and String.prototype.trim):
space, tab, line feed, carriage return, vertical tab, form feed,
no-break space, BOM and the two Unicode line separators. -/
def jsIsWs (c : Char) : Bool :=
  c.toNat = 32 || c.toNat = 9 || c.toNat = 10 || c.toNat = 13 || c.toNat = 11 || c.toNat = 12 ||
  c.toNat = 0xA0 || c.toNat = 0xFEFF || c.toNat = 0x2028 || c.toNat = 0x2029

def trimList (cs : List Char) : List Char :=
  ((cs.dropWhile jsIsWs).reverse.dropWhile jsIsWs).reverse

/-- String.prototype.trim. -/
def jsTrim (s : String) : String := String.mk (trimList s.toList)

/-- ASCII upper-casing, as used by toUpperCase on the inputs in scope. -/
def upChar (c : Char) : Char :=
  if 'a' ≤ c ∧ c ≤ 'z' then Char.ofNat (c.toNat - 32) else c

/-- ASCII lower-casing, as used by toLowerCase on the inputs in scope. -/
def lowChar (c : Char) : Char :=
  if 'A' ≤ c ∧ c ≤ 'Z' then Char.ofNat (c.toNat + 32) else c

def strUpper (s : String) : String := String.mk (s.toList.map upChar)

def strLower (s : String) : String := String.mk (s.toList.map lowChar)

/-- JS truthiness-based or on strings: a-or-b is b exactly when a is empty. -/
def jsOr (a b : String) : String := if a = "" then b else a

def startsWithL : List Char → List Char → Bool
  | [], _ => true
  | _ :: _, [] => false
  | n :: ns, h :: hs => n = h && startsWithL ns hs

def infixL (needle : List Char) : List Char → Bool
  | [] => startsWithL needle []
  | h :: hs => startsWithL needle (h :: hs) || infixL needle hs

/-- String.prototype.includes. -/
def containsSub (hay needle : String) : Bool := infixL needle.toList hay.toList

/-! ### Decimal digits -/

def isDig (c : Char) : Bool := 48 ≤ c.toNat && c.toNat ≤ 57

def digVal (c : Char) : ℕ := c.toNat - 48

def digitsToNat (cs : List Char) : ℕ := cs.foldl (fun a c => 10 * a + digVal c) 0

def digitChar (n : ℕ) : Char := Char.ofNat (48 + n % 10)

/-- Decimal digit list of a natural number; fuel-driven so that the kernel
can evaluate it (the fuel argument strictly dominates the value). -/
def decReprCore : ℕ → ℕ → List Char
  | 0, _ => []
  | fuel + 1, n => if n < 10 then [digitChar n] else decReprCore fuel (n / 10) ++ [digitChar (n % 10)]

def decReprL (n : ℕ) : List Char := decReprCore (n + 1) n

def decRepr (n : ℕ) : String := String.mk (decReprL n)

/-- String.prototype.padStart(2, "0"). -/
def padStart2 (s : String) : String :=
  if 2 ≤ s.length then s else if s.length = 1 then "0" ++ s else "00"

def allDigits (cs : List Char) : Bool := cs.all isDig

/-! ### toISODate (src/lib/normalize.ts)

The three numeric patterns use the separator class slash-dash-dot, each
occurrence independent.  The matchers below mirror the anchored regexes,
including the greedy-then-backtrack behaviour of the one-or-two-digit groups. -/

def isSep (c : Char) : Bool := c = '/' || c = '-' || c = '.'

/-- One or two digits followed by a separator: greedily try two digits, then
one, exactly as the backtracking regex does. Returns captured digits and the
remainder after the separator. -/
def take12sep : List Char → Option (List Char × List Char)
  | a :: b :: c :: rest =>
    if isDig a then
      if isDig b && isSep c then some ([a, b], rest)
      else if isSep b then some ([a], c :: rest)
      else none
    else none
  | [a, b] => if isDig a && isSep b then some ([a], []) else none
  | _ => none

/-- A final run of digits with length between k1 and k2, anchored at the end. -/
def endDigits (k1 k2 : ℕ) (cs : List Char) : Option (List Char) :=
  if allDigits cs && k1 ≤ cs.length && cs.length ≤ k2 then some cs else none

/-- Anchored pattern: four digits, separator, 1-2 digits, separator, 1-2 digits. -/
def matchYMD : List Char → Option (List Char × List Char × List Char)
  | a :: b :: c :: d :: s :: rest =>
    if allDigits [a, b, c, d] && isSep s then
      match take12sep rest with
      | some (m, rest2) =>
        match endDigits 1 2 rest2 with
        | some dd => some ([a, b, c, d], m, dd)
        | none => none
      | none => none
    else none
  | _ => none

/-- Anchored pattern: 1-2 digits, separator, 1-2 digits, separator, 2-4 digits.
Used for both the day-month-year and month-day-year readings (the source
declares the same regex twice). -/
def matchDMY (cs : List Char) : Option (List Char × List Char × List Char) :=
  match take12sep cs with
  | some (p1, r1) =>
    match take12sep r1 with
    | some (p2, r2) =>
      match endDigits 2 4 r2 with
      | some y => some (p1, p2, y)
      | none => none
    | none => none
  | none => none

def isUC (c : Char) : Bool := 'A' ≤ c && c ≤ 'Z'

def isLC (c : Char) : Bool := 'a' ≤ c && c ≤ 'z'

def isAlpha (c : Char) : Bool := isUC c || isLC c

def monthsTable : List (String × String) :=
  [("jan", "01"), ("feb", "02"), ("mar", "03"), ("apr", "04"), ("may", "05"), ("jun", "06"),
   ("jul", "07"), ("aug", "08"), ("sep", "09"), ("sept", "09"), ("oct", "10"), ("nov", "11"),
   ("dec", "12")]

def mm (name : String) : String := (monthsTable.lookup (strLower name)).getD "01"

/-- Anchored pattern: 3-9 letters, whitespace, 1-2 digits, comma, optional
whitespace, 4 digits (the "Aug 31, 2025" form). -/
def matchNamed1 (cs : List Char) : Option (List Char × List Char × List Char) :=
  let (ls, r1) := cs.span isAlpha
  if 3 ≤ ls.length && ls.length ≤ 9 then
    let (ws, r2) := r1.span jsIsWs
    if ws.length = 0 then none else
    let (ds, r3) := r2.span isDig
    if 1 ≤ ds.length && ds.length ≤ 2 then
      match r3 with
      | ',' :: r4 =>
        let (_, r5) := r4.span jsIsWs
        let (ys, r6) := r5.span isDig
        if ys.length = 4 && r6 = [] then some (ls, ds, ys) else none
      | _ => none
    else none
  else none

/-- Anchored pattern: 1-2 digits, whitespace, 3-9 letters, whitespace, 4
digits (the "31 Aug 2025" form). -/
def matchNamed2 (cs : List Char) : Option (List Char × List Char × List Char) :=
  let (ds, r1) := cs.span isDig
  if 1 ≤ ds.length && ds.length ≤ 2 then
    let (ws, r2) := r1.span jsIsWs
    if ws.length = 0 then none else
    let (ls, r3) := r2.span isAlpha
    if 3 ≤ ls.length && ls.length ≤ 9 then
      let (ws2, r4) := r3.span jsIsWs
      if ws2.length = 0 then none else
      let (ys, r5) := r4.span isDig
      if ys.length = 4 && r5 = [] then some (ds, ls, ys) else none
    else none
  else none

def strOf (cs : List Char) : String := String.mk cs

/-- toISODate from src/lib/normalize.ts lines 26-58: strict year-month-day
first; then the day-month-year reading, returned only when the first
component exceeds 12; then the month-day-year reading, returned when its
month component exceeds 12 (unreachable, since such a string already
returned from the previous branch) or its day component is at most 12;
then the two named-month forms; otherwise the unknown sentinel. -/
def toISODate (raw : String) : String :=
  let t := jsTrim raw
  if t = "" then "unknown" else
  let cs := t.toList
  match matchYMD cs with
  | some (y, m, d) => strOf y ++ "-" ++ padStart2 (strOf m) ++ "-" ++ padStart2 (strOf d)
  | none =>
  let dmy : Option String :=
    match matchDMY cs with
    | some (d, m, y) =>
      let yy := if y.length = 2 then "20" ++ strOf y else strOf y
      if 12 < digitsToNat d then
        some (yy ++ "-" ++ padStart2 (strOf m) ++ "-" ++ padStart2 (strOf d))
      else none
    | none => none
  match dmy with
  | some r => r
  | none =>
  let mdy : Option String :=
    match matchDMY cs with
    | some (m, d, y) =>
      let yy := if y.length = 2 then "20" ++ strOf y else strOf y
      if 12 < digitsToNat m || digitsToNat d ≤ 12 then
        some (yy ++ "-" ++ padStart2 (strOf m) ++ "-" ++ padStart2 (strOf d))
      else none
    | none => none
  match mdy with
  | some r => r
  | none =>
  match matchNamed1 cs with
  | some (mon, d, y) => strOf y ++ "-" ++ mm (strOf mon) ++ "-" ++ padStart2 (strOf d)
  | none =>
  match matchNamed2 cs with
  | some (d, mon, y) => strOf y ++ "-" ++ mm (strOf mon) ++ "-" ++ padStart2 (strOf d)
  | none => "unknown"

/-! ### normalizeCurrency (src/lib/normalize.ts lines 59-67) -/

def SYMBOL_TO_ISO : List (String × String) :=
  [("$", "USD"), ("₱", "PHP"), ("PHP", "PHP"), ("USD", "USD"), ("€", "EUR"), ("¥", "JPY"),
   ("£", "GBP")]

def isIso3 (s : String) : Bool :=
  match s.toList with
  | [a, b, c] => isUC a && isUC b && isUC c
  | _ => false

/-- normalizeCurrency: trim and upper-case; exact table lookup; strict
three-uppercase-letter form; substring scan over the table keys in insertion
order; otherwise the unknown sentinel.  Note that every branch returns a
non-empty string. -/
def normalizeCurrency (input : String) : String :=
  let s := strUpper (jsTrim input)
  if s = "" then "unknown"
  else
    match SYMBOL_TO_ISO.lookup s with
    | some iso => iso
    | none =>
      if isIso3 s then s
      else
        match SYMBOL_TO_ISO.find? (fun p => containsSub s p.1) with
        | some p => p.2
        | none => "unknown"

/-! ### Row currency resolution of the PDF text path
(src/lib/pdf-text-parser.ts lines 105-107) -/

/-- The per-row currency computed by parsePdfTextToNormalized for a matched
transaction row: normalizeCurrency of the raw amount token, then the JS
or-chain with the document-level header currency and the unknown sentinel. -/
def pdfRowCurrency (amtRaw headerCurrency : String) : String :=
  let txnCur := normalizeCurrency amtRaw
  jsOr (jsOr txnCur headerCurrency) "unknown"

/-! ### Header currency resolution of rowsToNormalized
(src/lib/rows-to-normalized.ts lines 23-29 and 31-54) -/

/-- First-pass row currency of rowsToNormalized line 38-39: normalizeCurrency
of the (optional) raw cell, then the JS or with the unknown sentinel. -/
def rtnTxnCurrency (rcur : Option String) : String :=
  jsOr (normalizeCurrency (rcur.getD "")) "unknown"

def bumpCount : List (String × ℕ) → String → List (String × ℕ)
  | [], c => [(c, 1)]
  | (k, n) :: rest, c => if k = c then (k, n + 1) :: rest else (k, n) :: bumpCount rest c

/-- majorityIsoCurrency: count the strict-ISO row currencies in a Map (whose
iteration order is first-insertion order), then take the first currency with
a strictly maximal count, defaulting to the unknown sentinel. -/
def majorityIsoCurrency (curs : List String) : String :=
  let counts := (curs.filter (fun c => isIso3 c)).foldl bumpCount []
  (counts.foldl (fun best p => if best.2 < p.2 then p else best) ("unknown", 0)).1

/-- Header-currency resolution of rowsToNormalized lines 52-54: the JS
or-chain of the normalized explicit meta currency, the majority row currency
and the unknown sentinel, applied to the first-pass row currencies. -/
def rtnHeaderCurrency (rowCurs : List (Option String)) (metaCurrency : Option String) : String :=
  let txns := rowCurs.map rtnTxnCurrency
  let headerCurrencyExplicit := normalizeCurrency (metaCurrency.getD "")
  let headerCurrencyInferred := majorityIsoCurrency txns
  jsOr (jsOr headerCurrencyExplicit headerCurrencyInferred) "unknown"

/-! ### Exact JS-number values

JS doubles are modelled by exact fractions carried as an integer numerator
over a positive natural denominator, without normalization, so that every
operation reduces structurally (no gcd) and concrete runs of the embedded
code can be settled by the decide tactic.  The toRat homomorphism below maps
the representation to the rationals for the symbolic proofs. -/

structure JsQ where
  num : ℤ
  den : ℕ
  dpos : 0 < den

namespace JsQ

def ofInt (n : ℤ) : JsQ := ⟨n, 1, Nat.one_pos⟩

def ofNat (n : ℕ) : JsQ := ⟨(n : ℤ), 1, Nat.one_pos⟩

def frac (n : ℤ) (d : ℕ) (hd : 0 < d) : JsQ := ⟨n, d, hd⟩

def add (a b : JsQ) : JsQ :=
  ⟨a.num * (b.den : ℤ) + b.num * (a.den : ℤ), a.den * b.den, Nat.mul_pos a.dpos b.dpos⟩

def neg (a : JsQ) : JsQ := ⟨-a.num, a.den, a.dpos⟩

def mul (a b : JsQ) : JsQ := ⟨a.num * b.num, a.den * b.den, Nat.mul_pos a.dpos b.dpos⟩

def absQ (a : JsQ) : JsQ := ⟨(a.num.natAbs : ℤ), a.den, a.dpos⟩

/-- Division by a positive natural number. -/
def divPos (a : JsQ) (n : ℕ) (hn : 0 < n) : JsQ := ⟨a.num, a.den * n, Nat.mul_pos a.dpos hn⟩

/-- Multiplication by 10^k (scaling used by toFixed and the cent math). -/
def mulPow10 (a : JsQ) (k : ℕ) : JsQ :=
  ⟨a.num * (10 : ℤ) ^ k, a.den, a.dpos⟩

/-- Division by 10^k. -/
def divPow10 (a : JsQ) (k : ℕ) : JsQ :=
  ⟨a.num, a.den * 10 ^ k, Nat.mul_pos a.dpos (pow_pos (by decide) k)⟩

def le (a b : JsQ) : Bool := decide (a.num * (b.den : ℤ) ≤ b.num * (a.den : ℤ))

def lt (a b : JsQ) : Bool := decide (a.num * (b.den : ℤ) < b.num * (a.den : ℤ))

/-- Math.min on real (non-NaN) values. -/
def minQ (a b : JsQ) : JsQ := if lt b a then b else a

/-- Math.max on real (non-NaN) values. -/
def maxQ (a b : JsQ) : JsQ := if lt a b then b else a

/-- Floor of the represented value (integer division by the positive
denominator). -/
def floorQ (a : JsQ) : ℤ := a.num / (a.den : ℤ)

/-- The value as a rational number. -/
def toRat (a : JsQ) : ℚ := (a.num : ℚ) / (a.den : ℚ)

end JsQ

/-- Math.round, and the tie rule of toFixed: round half toward positive
infinity. -/
def jsRound (a : JsQ) : ℤ := JsQ.floorQ (a.add (JsQ.frac 1 2 (by decide)))

/-! ### The Number coercion, modelled on the decimal-literal grammar -/

/-- Optional sign; true means negative. -/
def parseSignOpt : List Char → Bool × List Char
  | '-' :: rest => (true, rest)
  | '+' :: rest => (false, rest)
  | cs => (false, cs)

/-- The optional fraction part: consume a dot and the following digit run. -/
def jsNumFracPart : List Char → List Char × List Char
  | '.' :: rest => rest.span isDig
  | cs => ([], cs)

/-- The optional exponent part applied to the mantissa; anything else trailing
makes the whole coercion NaN. -/
def jsNumExpPart (mant : JsQ) : List Char → Option JsQ
  | [] => some mant
  | e :: rest =>
    if e = 'e' ∨ e = 'E' then
      let sg := parseSignOpt rest
      let ed := sg.2.span isDig
      if ed.1 = [] ∨ ed.2 ≠ [] then none
      else some (if sg.1 then mant.divPow10 (digitsToNat ed.1) else mant.mulPow10 (digitsToNat ed.1))
    else none

def jsNumberList (cs : List Char) : Option JsQ :=
  let sg := parseSignOpt cs
  let ipp := sg.2.span isDig
  let fpp := jsNumFracPart ipp.2
  if ipp.1 = [] ∧ fpp.1 = [] then none
  else
    let mant :=
      (JsQ.ofNat (digitsToNat ipp.1)).add ((JsQ.ofNat (digitsToNat fpp.1)).divPow10 fpp.1.length)
    jsNumExpPart (if sg.1 then mant.neg else mant) fpp.2

/-- The Number(string) coercion: trimmed empty input is 0; otherwise the
decimal-literal grammar (optional sign, integer digits, optional fraction,
optional exponent); none models NaN.  Hex, octal, binary and Infinity forms
are not modelled.  The value is kept as an exact rational: the rounding of
the real coercion to a binary64 double is not modelled, so statements about
money built on this coercion restrict their inputs to magnitudes where the
double represents every cent quantity exactly (well below 2^53 cents). -/
def jsNumber (s : String) : Option JsQ :=
  let cs := trimList s.toList
  if cs = [] then some (JsQ.ofInt 0) else jsNumberList cs

def padZeros (w : ℕ) (cs : List Char) : List Char := List.replicate (w - cs.length) '0' ++ cs

/-- Digit string of a nonnegative integer scaled by 10^f, printed with
exactly f fractional places. -/
def fixedDigits (n : ℕ) (f : ℕ) : List Char :=
  decReprL (n / 10 ^ f) ++ '.' :: padZeros f (decReprL (n % 10 ^ f))

/-- ECMAScript Number::toString for magnitudes at or above 10^21 produces
exponential notation.  Doubles of that magnitude are integers, so the model
takes the floor and emits all its digits; the shortest-significand
digit-stripping of the real algorithm is not modelled (both shapes violate
every fixed-decimal pattern and parse back to the same value). -/
def jsExpDigits (x : JsQ) : List Char :=
  match decReprL x.floorQ.toNat with
  | [] => ['0']
  | d :: rest => d :: '.' :: rest ++ 'e' :: '+' :: decReprL rest.length

/-- Number.prototype.toFixed(f): split off the sign; magnitudes at or above
10^21 fall back to Number::toString; otherwise round the scaled magnitude
half-up and print with exactly f fractional digits. -/
def jsToFixed (f : ℕ) (x : JsQ) : String :=
  let sgn : List Char := if x.lt (JsQ.ofInt 0) then ['-'] else []
  let y := x.absQ
  if (JsQ.ofInt ((10 : ℤ) ^ 21)).le y then String.mk (sgn ++ jsExpDigits y)
  else String.mk (sgn ++ fixedDigits (jsRound (y.mulPow10 f)).toNat f)

/-! ### normalizeAmount and the money helpers (src/lib/normalize.ts) -/

/-- The dot of a JS regex: any character except a line terminator. -/
def jsDotChar (c : Char) : Bool :=
  !(c = '\n' || c = '\r' || c.toNat = 0x2028 || c.toNat = 0x2029)

/-- Anchored parenthesis-wrap test: opening parenthesis, any run of
non-line-terminator characters, closing parenthesis at the end. -/
def parenWrapped (cs : List Char) : Bool :=
  match cs with
  | '(' :: rest =>
    match rest.reverse with
    | ')' :: midRev => midRev.all jsDotChar
    | _ => false
  | _ => false

/-- Net effect of the two replaces in normalizeAmount: keep only digits,
dots and minus signs. -/
def cleanAmountChars (cs : List Char) : List Char :=
  cs.filter (fun c => isDig c || c = '.' || c = '-')

/-- normalizeAmount from src/lib/normalize.ts lines 68-77. -/
def normalizeAmount (raw : String) : String :=
  let s := jsTrim raw
  if s = "" then "0.00" else
  let parenNeg := parenWrapped s.toList
  let s2 := strOf (cleanAmountChars s.toList)
  if s2 = "" ∨ s2 = "-" ∨ s2 = "." then "0.00"
  else
    let n := (jsNumber s2).getD (JsQ.ofInt 0)
    let n2 := if parenNeg then n.absQ.neg else n
    jsToFixed 2 n2

def stripCommas (s : String) : String := strOf (s.toList.filter (fun c => c ≠ ','))

/-- amountToNumber from src/lib/normalize.ts lines 81-84: default empty to
"0", strip commas, coerce with Number, and round to cents when finite
(non-finite gives 0).  Inherits the exact-rational coercion: Math.round of
the real double drifts once cent magnitudes approach 2^53, so cent-exactness
statements bound their inputs far below that (at 10^15 cents). -/
def amountToNumber (a : String) : JsQ :=
  match jsNumber (stripCommas (jsOr a "0")) with
  | some n => (JsQ.ofInt (jsRound (n.mulPow10 2))).divPow10 2
  | none => JsQ.ofInt 0

/-- sumAmounts from src/lib/normalize.ts lines 85-88: accumulate the
cent-rounded values as integers, then print the total over 100 with two
fractional digits.  The real fold adds doubles, exact only while every
partial sum of cents stays below 2^53; the exactness theorem bounds the
summed absolute cents at 10^15 accordingly. -/
def sumAmounts (vals : List String) : String :=
  let cents : ℤ := vals.foldl (fun acc v => acc + jsRound ((amountToNumber v).mulPow10 2)) 0
  jsToFixed 2 ((JsQ.ofInt cents).divPow10 2)

/-- equalsMoney from src/lib/normalize.ts lines 89-91.  Compares toFixed
renderings; the real comparison acts on doubles, which identify distinct
cent values once parsing rounds them together (possible above ~2^53 cents),
so the reconciliation theorem bounds its cent totals at 10^15. -/
def equalsMoney (a b : String) : Bool :=
  jsToFixed 2 (amountToNumber a) == jsToFixed 2 (amountToNumber b)

/-- The rational value of the Number coercion of a string (none models NaN);
used to state value properties of formatted outputs. -/
def jsNumVal (s : String) : Option ℚ := (jsNumber s).map JsQ.toRat

/-- Computable guard: the coerced value, when it exists, has magnitude below
the 10^21 exponential-notation threshold of toFixed. -/
def optBelow21 (o : Option JsQ) : Bool :=
  match o with
  | some q => q.absQ.lt (JsQ.ofInt ((10 : ℤ) ^ 21))
  | none => true

/-- Computable guard: the coerced value, when it exists, has magnitude below
10^20.  A tenth of the exponential threshold: the binary64 double of such a
value stays below 10^21 even after rounding (the relative rounding error is
at most 2^-53), so the real toFixed also keeps fixed notation; the exact
model admits values up to the threshold itself, where the real coercion can
round across it (Number("999999999999999999999.99") is the double 1e21). -/
def optBelow20 (o : Option JsQ) : Bool :=
  match o with
  | some q => q.absQ.lt (JsQ.ofInt ((10 : ℤ) ^ 20))
  | none => true

/-- Computable guard: the parse succeeded and its value lies in the unit
interval. -/
def scoreInUnit (o : Option JsQ) : Bool :=
  match o with
  | some q => (JsQ.ofInt 0).le q && q.le (JsQ.ofInt 1)
  | none => false

/-! ### Scoring engine (src/lib/normalize.ts lines 4-13 and 94-147) -/

/-- UTF-16 code units of a character, as charCodeAt enumerates them. -/
def utf16Units (c : Char) : List ℕ :=
  if c.toNat < 0x10000 then [c.toNat]
  else [0xD800 + (c.toNat - 0x10000) / 0x400, 0xDC00 + (c.toNat - 0x10000) % 0x400]

def utf16Codes (s : String) : List ℕ := (s.toList.map utf16Units).flatten

def toInt32 (z : ℤ) : ℤ := (z + 2 ^ 31) % 2 ^ 32 - 2 ^ 31

def toUint32 (z : ℤ) : ℤ := z % 2 ^ 32

/-- djb2 rolling hash (src/lib/normalize.ts lines 8-12): the shift operates
on the 32-bit truncation while the additions are exact, matching JS number
semantics for the seed lengths in scope; the final shift-right-zero is the
unsigned 32-bit truncation. -/
def djb2 (s : String) : JsQ :=
  let h : ℤ := (utf16Codes s).foldl (fun h c => toInt32 (toInt32 h * 32) + h + (c : ℤ)) 5381
  JsQ.frac (toUint32 h % 10000) 10000 (by decide)

def jitter (seed : String) (scale : JsQ) : JsQ := scale.mul (djb2 seed)

def clamp01 (x : JsQ) : JsQ := (JsQ.ofInt 0).maxQ ((JsQ.ofInt 1).minQ x)

/-- to5 (src/lib/normalize.ts line 5): clamp to the unit interval, round at
the fifth decimal, format with five fractional digits. -/
def to5 (x : JsQ) : String :=
  jsToFixed 5 ((JsQ.ofInt (jsRound ((clamp01 x).mulPow10 5))).divPow10 5)

/-- Anchored test for the four-two-two digit date shape. -/
def isoShape (s : String) : Bool :=
  match s.toList with
  | [a, b, c, d, s1, e, f, s2, g, h] =>
    allDigits [a, b, c, d] && s1 = '-' && allDigits [e, f] && s2 = '-' && allDigits [g, h]
  | _ => false

/-- Strip one leading minus sign, as the optional-sign part of the anchored
shape tests consumes it. -/
def dropMinus (cs : List Char) : List Char :=
  match cs with
  | [] => []
  | c :: rest => if c = '-' then rest else c :: rest

def amountCore (cs : List Char) : Bool :=
  let sp := cs.span isDig
  decide (sp.1 ≠ []) && match sp.2 with
    | ['.', d1, d2] => isDig d1 && isDig d2
    | _ => false

/-- Anchored test for the signed two-decimal amount shape: optional minus,
at least one digit, a dot, exactly two digits. -/
def matchesAmount (s : String) : Bool := amountCore (dropMinus s.toList)

def fiveCore (cs : List Char) : Bool :=
  let sp := cs.span isDig
  decide (sp.1 ≠ []) && match sp.2 with
    | '.' :: ds => allDigits ds && ds.length = 5
    | _ => false

/-- Anchored test for a signed number with exactly five fractional digits. -/
def fiveFracShape (s : String) : Bool := fiveCore (dropMinus s.toList)

/-- The property claimed of the emitted scores: the string coerces to a
value in the unit interval and has exactly five fractional digits. -/
def scoreOK (s : String) : Bool :=
  match jsNumber s with
  | some q => ((JsQ.ofInt 0).le q && q.le (JsQ.ofInt 1)) && fiveFracShape s
  | none => false

/-- From the claim for C7: the exact integer-cent value of the digit part of
a signed two-decimal amount string (digits, dot, two digits). -/
def centsCore (cs : List Char) : ℤ :=
  let sp := cs.span isDig
  match sp.2 with
  | ['.', d1, d2] => (100 * digitsToNat sp.1 + 10 * digVal d1 + digVal d2 : ℤ)
  | _ => 0

/-- From the claim for C7: the exact integer-cent reading of a signed
two-decimal amount string. -/
def amount2Cents (s : String) : ℤ :=
  match s.toList with
  | [] => 0
  | c :: rest => if c = '-' then -(centsCore rest) else centsCore (c :: rest)

/-- From the claim for C7: integer cents divided back and formatted with two
fractional digits. -/
def fmtCentsSpec (c : ℤ) : String :=
  (if c < 0 then "-" else "") ++ decRepr (c.natAbs / 100) ++ "." ++
    strOf (padZeros 2 (decReprL (c.natAbs % 100)))

/-- Replace runs of whitespace by single spaces; fuel-driven so the kernel
can evaluate it (the fuel dominates the list length). -/
def collapseWsCore : ℕ → List Char → List Char
  | 0, _ => []
  | _, [] => []
  | fuel + 1, c :: rest =>
    if jsIsWs c then ' ' :: collapseWsCore fuel (rest.dropWhile jsIsWs)
    else c :: collapseWsCore fuel rest

def utf16LenL (cs : List Char) : ℕ := (cs.map (fun c => (utf16Units c).length)).sum

/-- Length, in UTF-16 units, of the whitespace-collapsed and trimmed
description. -/
def descLen (d : String) : ℕ :=
  utf16LenL (trimList (collapseWsCore d.toList.length d.toList))

structure RPRow where
  date : String
  description : String
  amount : String
  currency : String

def rowSeed (r : RPRow) : String :=
  r.date ++ "|" ++ r.description ++ "|" ++ r.amount ++ "|" ++ r.currency

/-- rowPointFrom (src/lib/normalize.ts lines 94-102). -/
def rowPointFrom (r : RPRow) : String :=
  let dateOK := if r.date ≠ "unknown" ∧ isoShape r.date then JsQ.ofInt 1 else JsQ.ofInt 0
  let amtOK := if matchesAmount r.amount then JsQ.ofInt 1 else JsQ.ofInt 0
  let descOK := clamp01 (JsQ.frac (descLen r.description) 40 (by decide))
  let curOK := if isIso3 r.currency then JsQ.ofInt 1 else JsQ.ofInt 0
  let score := (((JsQ.frac 3 10 (by decide)).mul dateOK).add
    ((JsQ.frac 4 10 (by decide)).mul amtOK)).add
    (((JsQ.frac 2 10 (by decide)).mul descOK).add ((JsQ.frac 1 10 (by decide)).mul curOK))
  to5 (score.add (jitter (rowSeed r) (JsQ.frac 5 1000 (by decide))))

structure HPHeader where
  bank : String
  bank_account : String
  customer_account_number : String
  statement_date : String
  opening_balance : String
  closing_balance : String
  currency : String

def headerSeed (h : HPHeader) : String :=
  h.bank ++ "|" ++ h.bank_account ++ "|" ++ h.customer_account_number ++ "|" ++
  h.statement_date ++ "|" ++ h.opening_balance ++ "|" ++ h.closing_balance ++ "|" ++ h.currency

/-- headerPointFrom (src/lib/normalize.ts lines 104-118). -/
def headerPointFrom (h : HPHeader) : String :=
  let bankOK := if h.bank ≠ "unknown" then JsQ.ofInt 1 else JsQ.ofInt 0
  let acctOK := if h.bank_account ≠ "unknown" then JsQ.ofInt 1 else JsQ.ofInt 0
  let custOK := if h.customer_account_number ≠ "unknown" then JsQ.ofInt 1 else JsQ.ofInt 0
  let dateOK := if h.statement_date ≠ "unknown" ∧ isoShape h.statement_date then JsQ.ofInt 1
    else JsQ.ofInt 0
  let openOK := if matchesAmount h.opening_balance then JsQ.ofInt 1 else JsQ.ofInt 0
  let closeOK := if matchesAmount h.closing_balance then JsQ.ofInt 1 else JsQ.ofInt 0
  let currOK := if isIso3 h.currency then JsQ.ofInt 1 else JsQ.ofInt 0
  let score := ((((JsQ.frac 18 100 (by decide)).mul bankOK).add
    ((JsQ.frac 14 100 (by decide)).mul acctOK)).add
    (((JsQ.frac 14 100 (by decide)).mul custOK).add
    ((JsQ.frac 18 100 (by decide)).mul dateOK))).add
    ((((JsQ.frac 12 100 (by decide)).mul openOK).add
    ((JsQ.frac 12 100 (by decide)).mul closeOK)).add
    ((JsQ.frac 12 100 (by decide)).mul currOK))
  to5 (score.add (jitter (headerSeed h) (JsQ.frac 5 1000 (by decide))))

structure DPHeader where
  row_point : String
  opening_balance : String
  closing_balance : String

structure DPRow where
  row_point : String
  amount : String

/-- Number(x-or-"0"), the parse applied to the stored row points. -/
def parseScore (s : String) : Option JsQ := jsNumber (jsOr s "0")

/-- The pre-bonus base of docPointFrom; none models the NaN produced when
some stored row point does not parse. -/
def docBase (h : DPHeader) (rows : List DPRow) : Option JsQ := do
  let hq ← parseScore h.row_point
  let qs ← rows.mapM (fun r => parseScore r.row_point)
  let avg := if hl : rows.length = 0 then JsQ.ofInt 0
    else (qs.foldl JsQ.add (JsQ.ofInt 0)).divPos rows.length (Nat.pos_of_ne_zero hl)
  pure ((hq.add avg).divPos 2 (by decide))

/-- The reconciliation test shared by docPointFrom and footerStatsFrom. -/
def docBalanced (h : DPHeader) (rows : List DPRow) : Bool :=
  let total := sumAmounts (rows.map (fun r => r.amount))
  equalsMoney (sumAmounts [h.opening_balance, total]) h.closing_balance

/-- docPointFrom (src/lib/normalize.ts lines 122-136): base plus a 0.1 bonus
when balanced, capped at 1, rounded at the fifth decimal and printed with
five fractional digits.  Unlike to5, no clamp from below is applied. -/
def docPointFrom (h : DPHeader) (rows : List DPRow) : String :=
  match docBase h rows with
  | none => "NaN"
  | some base =>
    let bonus := if docBalanced h rows then JsQ.frac 1 10 (by decide) else JsQ.ofInt 0
    let final := (JsQ.ofInt 1).minQ (base.add bonus)
    jsToFixed 5 ((JsQ.ofInt (jsRound (final.mulPow10 5))).divPow10 5)

structure FooterStats where
  num_transactions : ℕ
  total_amount_parsed : String
  balanced : Bool
  doc_point : String

/-- footerStatsFrom (src/lib/normalize.ts lines 138-147). -/
def footerStatsFrom (h : DPHeader) (rows : List DPRow) : FooterStats :=
  { num_transactions := rows.length
    total_amount_parsed := sumAmounts (rows.map (fun r => r.amount))
    balanced := docBalanced h rows
    doc_point := docPointFrom h rows }

/-- The exact integer-cent sum of the row amounts. -/
def rowCents (rows : List DPRow) : ℤ := (rows.map (fun r => amount2Cents r.amount)).sum

/-- Spec-side reconciliation: the spec demands cent equality, opening balance
plus the cent-accurate sum of the transaction amounts equals the closing
balance. -/
def specCentEq (h : DPHeader) (rows : List DPRow) : Bool :=
  decide (amount2Cents h.opening_balance + rowCents rows = amount2Cents h.closing_balance)

/-- Spec-side doc point: the same min(1, base + bonus) formula, but with the
bonus granted under exact cent equality as the spec words it, rather than
under the string comparison of formatted toFixed renderings. -/
def specDocPoint (h : DPHeader) (rows : List DPRow) : String :=
  match docBase h rows with
  | none => "NaN"
  | some base =>
    let bonus := if specCentEq h rows then JsQ.frac 1 10 (by decide) else JsQ.ofInt 0
    let final := (JsQ.ofInt 1).minQ (base.add bonus)
    jsToFixed 5 ((JsQ.ofInt (jsRound (final.mulPow10 5))).divPow10 5)

/-- UTF-16 length of the text with the whitespace characters removed,
t.replace(/\s+/g, "").length from src/lib/pdf-parser.ts line 174. -/
def collapsedLen (t : String) : ℕ := utf16LenL (t.toList.filter (fun c => !jsIsWs c))

/-- The acceptance test of the first two extraction stages
(src/lib/pdf-parser.ts lines 174 and 183): truthy text whose collapsed
length reaches 50. -/
def accepts (t : String) : Bool := !(t == "") && decide (50 ≤ collapsedLen t)

structure PdfParseResult where
  text : String
  warnings : List String
  strategy : String
deriving DecidableEq

/-- Stage 3 of parsePdfSmart (src/lib/pdf-parser.ts lines 190-197): the OCR
outcome is modelled as an Except value, ok for the text the collaborator
returned and error for the message it threw. -/
def stage3 (w : List String) (s3 : Except String String) : Except String PdfParseResult :=
  match s3 with
  | .ok t => .ok ⟨t, w ++ (if t = "" then [] else ["OCR used (tesseract.js)."]), "ocr"⟩
  | .error e => .error (String.intercalate " | " (w ++ ["OCR failed: " ++ e]))

/-- Stage 2 of parsePdfSmart (src/lib/pdf-parser.ts lines 181-187). -/
def stage2 (w : List String) (s2 s3 : Except String String) : Except String PdfParseResult :=
  match s2 with
  | .ok t =>
    if accepts t then .ok ⟨t, w, "pdfjs-dist"⟩
    else stage3 (w ++ ["Low text from pdfjs-dist; trying OCR."]) s3
  | .error e => stage3 (w ++ ["pdfjs-dist text failed: " ++ e]) s3

/-- parsePdfSmart (src/lib/pdf-parser.ts lines 168-198), a pure function of
the three stage outcomes; each await of an external extractor is modelled by
an Except argument. -/
def parsePdfSmart (s1 s2 s3 : Except String String) : Except String PdfParseResult :=
  match s1 with
  | .ok t =>
    if accepts t then .ok ⟨t, [], "pdf-parse"⟩
    else stage2 ["Low text from pdf-parse; trying pdfjs-dist."] s2 s3
  | .error e => stage2 ["pdf-parse failed: " ++ e] s2 s3

/-- A stage counts as failed when it threw or returned below-threshold
text. -/
def stageFails : Except String String → Bool
  | .ok t => !accepts t
  | .error _ => true

/-- The warning a failed stage pushes: the fixed low-text message when it
returned, the prefixed thrown message when it threw. -/
def stageWarn (low pre : String) : Except String String → String
  | .ok _ => low
  | .error e => pre ++ e

/-- The separator class [/\-.] of the CSV date regexes
(src/lib/csv-parser.ts lines 11-12). -/
def csvSep (c : Char) : Bool := c = '/' || c = '-' || c = '.'

/-- Anchored digits-sep-digits-sep-digits split shared by the two CSV date
regexes: the three maximal digit groups, provided the whole string is
consumed. -/
def csvTriple (cs : List Char) : Option (List Char × List Char × List Char) :=
  let sp1 := cs.span isDig
  match sp1.2 with
  | c1 :: r1 =>
    if csvSep c1 then
      let sp2 := r1.span isDig
      match sp2.2 with
      | c2 :: r2 =>
        if csvSep c2 then
          let sp3 := r2.span isDig
          if sp3.2 = [] then some (sp1.1, sp2.1, sp3.1) else none
        else none
      | [] => none
    else none
  | [] => none

/-- toIsoDate of the CSV path (src/lib/csv-parser.ts lines 10-24): a
4-digit-first triple is read as Y/M/D, any other matching triple is read
with the FIRST component as the day, two-digit years get a 20 prefix, and a
non-matching cell is returned trimmed but otherwise unchanged. -/
def toIsoDate (s : String) : String :=
  let t := jsTrim s
  match csvTriple t.toList with
  | some (a, b, c) =>
    if a.length = 4 ∧ (1 ≤ b.length ∧ b.length ≤ 2) ∧ (1 ≤ c.length ∧ c.length ≤ 2) then
      strOf a ++ "-" ++ padStart2 (strOf b) ++ "-" ++ padStart2 (strOf c)
    else if (1 ≤ a.length ∧ a.length ≤ 2) ∧ (1 ≤ b.length ∧ b.length ≤ 2) ∧
        (2 ≤ c.length ∧ c.length ≤ 4) then
      (if c.length = 2 then "20" ++ strOf c else strOf c) ++ "-"
        ++ padStart2 (strOf b) ++ "-" ++ padStart2 (strOf a)
    else t
  | none => t

/-- normalizeAmount of the CSV path (src/lib/csv-parser.ts lines 26-34):
unlike the normalize.ts version there is no early return on the empty
string; parentheses force a negative absolute value and the result is
toFixed(2). -/
def csvNormalizeAmount (raw : String) : String :=
  let s := jsTrim raw
  let parenNeg := parenWrapped s.toList
  let cleaned := strOf (s.toList.filter (fun c => isDig c || c = '.' || c = '-'))
  let num := match jsNumber (jsOr cleaned "0") with
    | some q => q
    | none => JsQ.ofInt 0
  jsToFixed 2 (if parenNeg then num.absQ.neg else num)

/-- isHeaderLikeRow (src/lib/csv-parser.ts lines 37-45). -/
def isHeaderLikeRow (cols : List String) : Bool :=
  let lowered := cols.map (fun c => strLower (jsTrim c))
  lowered.contains "date" &&
    (lowered.contains "description" || containsSub (String.intercalate "," lowered) "details") &&
    (lowered.contains "amount" || lowered.contains "debit" || lowered.contains "credit")

structure CsvTxn where
  date : String
  description : String
  amount : String
deriving DecidableEq

/-- The first present key of the ??-chain; a record parsed with columns:true
is modelled as an association list from header names to cell values. -/
def firstKey (r : List (String × String)) : List String → Option String
  | [] => none
  | k :: ks =>
    match r.lookup k with
    | some v => some v
    | none => firstKey r ks

/-- mapHeaderRow (src/lib/csv-parser.ts lines 47-81). -/
def mapHeaderRow (r : List (String × String)) : CsvTxn :=
  { date := toIsoDate ((firstKey r ["date", "Date", "DATE", "TransDate",
      "Transaction Date", "Posting Date", "Date"]).getD "")
    description := jsTrim ((firstKey r ["description", "Description", "DESCRIPTION",
      "Merchant", "MERCHANT", "Details", "Description 1", "Narration"]).getD "")
    amount := csvNormalizeAmount ((firstKey r ["amount", "Amount", "AMOUNT",
      "Transaction Amount", "Amount (PHP)", "Amount (USD)", "Amount"]).getD "") }

/-- mapNoHeaderRow (src/lib/csv-parser.ts lines 83-90): missing positions
destructure to undefined and coerce to the empty string. -/
def mapNoHeaderRow (cols : List String) : CsvTxn :=
  { date := toIsoDate (cols.getD 0 "")
    description := jsTrim (cols.getD 1 "")
    amount := csvNormalizeAmount (cols.getD 2 "") }

/-- The three per-row score contributions of scoreRows
(src/lib/csv-parser.ts lines 94-98). -/
def scoreRow (r : CsvTxn) : ℕ :=
  (if isoShape r.date || r.date.toList.any isDig then 2 else 0) +
  (if matchesAmount r.amount then 1 else 0) +
  (if r.description.toList.any isAlpha then 1 else 0)

/-- scoreRows (src/lib/csv-parser.ts lines 92-100). -/
def scoreRows (rows : List CsvTxn) : ℕ := rows.foldl (fun s r => s + scoreRow r) 0

/-- The header-attempt candidate of parseCsv (src/lib/csv-parser.ts
line 115): mapped records with truthy descriptions. -/
def mappedHeader (headerRows : List (List (String × String))) : List CsvTxn :=
  (headerRows.map mapHeaderRow).filter (fun r => r.description ≠ "")

/-- The headerless candidate of parseCsv (src/lib/csv-parser.ts lines
127-130): the first row is dropped when header-like, the rest are kept. -/
def mappedSimple (simpleRows : List (List String)) : List CsvTxn :=
  ((match simpleRows with
    | [] => []
    | first :: rest => if isHeaderLikeRow first then rest else first :: rest).map
      mapNoHeaderRow).filter (fun r => r.description ≠ "")

/-- parseCsv (src/lib/csv-parser.ts lines 102-141) as a pure function of the
two csv-parse outcomes (with headers and without). -/
def parseCsv (headerRows : List (List (String × String)))
    (simpleRows : List (List String)) : List CsvTxn :=
  if scoreRows (mappedSimple simpleRows) > scoreRows (mappedHeader headerRows) ∨
      (scoreRows (mappedSimple simpleRows) = scoreRows (mappedHeader headerRows) ∧
        (mappedSimple simpleRows).length > (mappedHeader headerRows).length)
  then mappedSimple simpleRows
  else mappedHeader headerRows

/-- Split a character list at every occurrence of a delimiter. -/
def splitOnChar (d : Char) : List Char → List (List Char)
  | [] => [[]]
  | c :: rest =>
    match splitOnChar d rest with
    | [] => if c = d then [[], []] else [[c]]
    | h :: t => if c = d then [] :: h :: t else (c :: h) :: t

/-- Modelled from the spec: the csv-parse/sync collaborator, configured with
skip_empty_lines and trim, splits the buffer into newline-separated records,
splits each record at the delimiter and trims every cell; with columns:true
the first record names the columns of the rest. -/
def csvParse (columnsFlag : Bool) (delim : Char) (buf : String) :
    List (List String) × List (List (String × String)) :=
  let rows := ((splitOnChar '\n' buf.toList).filter (fun l => l ≠ [])).map
    (fun l => (splitOnChar delim l).map (fun cell => jsTrim (strOf cell)))
  if columnsFlag then
    match rows with
    | [] => ([], [])
    | hdr :: rest => ([], rest.map (fun r => hdr.zip r))
  else (rows, [])

/-- The public parseCsv entry on a whole buffer (src/lib/csv-parser.ts lines
103-104 plus the two parse attempts): the delimiter is ; when the first
line contains one and , otherwise. -/
def parseCsvBuf (buf : String) : List CsvTxn :=
  let firstLine := buf.toList.takeWhile (fun c => c ≠ '\n')
  let delim := if firstLine.contains ';' then ';' else ','
  parseCsv (csvParse true delim buf).2 (csvParse false delim buf).1

/-! ### Theorems: the JsQ-to-rational bridge -/

namespace JsQ

theorem denQ_pos (a : JsQ) : (0 : ℚ) < (a.den : ℚ) := by exact_mod_cast a.dpos

theorem denQ_ne (a : JsQ) : ((a.den : ℚ)) ≠ 0 := ne_of_gt (denQ_pos a)

theorem toRat_ofInt (n : ℤ) : (ofInt n).toRat = (n : ℚ) := by
  unfold ofInt toRat
  norm_num

theorem toRat_ofNat (n : ℕ) : (ofNat n).toRat = (n : ℚ) := by
  unfold ofNat toRat
  norm_num

theorem toRat_frac (n : ℤ) (d : ℕ) (hd : 0 < d) : (frac n d hd).toRat = (n : ℚ) / (d : ℚ) := rfl

theorem toRat_add (a b : JsQ) : (a.add b).toRat = a.toRat + b.toRat := by
  unfold add toRat
  rw [div_add_div _ _ (denQ_ne a) (denQ_ne b)]
  push_cast
  ring_nf

theorem toRat_neg (a : JsQ) : a.neg.toRat = -a.toRat := by
  unfold neg toRat
  push_cast
  ring

theorem toRat_mul (a b : JsQ) : (a.mul b).toRat = a.toRat * b.toRat := by
  unfold mul toRat
  rw [div_mul_div_comm]
  push_cast
  ring_nf

theorem toRat_absQ (a : JsQ) : a.absQ.toRat = |a.toRat| := by
  unfold absQ toRat
  rw [abs_div, abs_of_pos (denQ_pos a)]
  congr 1
  push_cast
  rfl

theorem toRat_divPos (a : JsQ) (n : ℕ) (hn : 0 < n) :
    (a.divPos n hn).toRat = a.toRat / (n : ℚ) := by
  unfold divPos toRat
  push_cast
  rw [div_div]

theorem toRat_mulPow10 (a : JsQ) (k : ℕ) :
    (a.mulPow10 k).toRat = a.toRat * 10 ^ k := by
  unfold mulPow10 toRat
  push_cast
  ring

theorem toRat_divPow10 (a : JsQ) (k : ℕ) :
    (a.divPow10 k).toRat = a.toRat / 10 ^ k := by
  unfold divPow10 toRat
  push_cast
  rw [div_div]

theorem le_iff (a b : JsQ) : (a.le b = true) ↔ a.toRat ≤ b.toRat := by
  unfold le toRat
  rw [div_le_div_iff (denQ_pos a) (denQ_pos b), decide_eq_true_iff]
  constructor
  · intro h
    exact_mod_cast h
  · intro h
    exact_mod_cast h

theorem lt_iff (a b : JsQ) : (a.lt b = true) ↔ a.toRat < b.toRat := by
  unfold lt toRat
  rw [div_lt_div_iff (denQ_pos a) (denQ_pos b), decide_eq_true_iff]
  constructor
  · intro h
    exact_mod_cast h
  · intro h
    exact_mod_cast h

theorem lt_false_iff (a b : JsQ) : (a.lt b = false) ↔ b.toRat ≤ a.toRat := by
  rw [← not_lt, ← lt_iff]
  cases h : a.lt b <;> simp [h]

theorem le_false_iff (a b : JsQ) : (a.le b = false) ↔ b.toRat < a.toRat := by
  rw [← not_le, ← le_iff]
  cases h : a.le b <;> simp [h]

theorem toRat_minQ (a b : JsQ) : (a.minQ b).toRat = min a.toRat b.toRat := by
  unfold minQ
  split
  · next h => rw [min_eq_right (le_of_lt ((lt_iff b a).mp h))]
  · next h =>
      have h' : b.lt a = false := by revert h; cases b.lt a <;> simp
      rw [min_eq_left ((lt_false_iff b a).mp h')]

theorem toRat_maxQ (a b : JsQ) : (a.maxQ b).toRat = max a.toRat b.toRat := by
  unfold maxQ
  split
  · next h => rw [max_eq_right (le_of_lt ((lt_iff a b).mp h))]
  · next h =>
      have h' : a.lt b = false := by revert h; cases a.lt b <;> simp
      rw [max_eq_left ((lt_false_iff a b).mp h')]

theorem floorQ_eq (a : JsQ) : a.floorQ = ⌊a.toRat⌋ :=
  (Rat.floor_intCast_div_natCast a.num a.den).symm

end JsQ

theorem jsRound_eq (a : JsQ) : jsRound a = ⌊a.toRat + 1 / 2⌋ := by
  unfold jsRound
  rw [JsQ.floorQ_eq, JsQ.toRat_add, JsQ.toRat_frac]
  norm_num

/-! ### Theorems: decimal digit strings -/

theorem digitChar_isDig (n : ℕ) : isDig (digitChar n) = true := by
  unfold digitChar
  have h : n % 10 < 10 := Nat.mod_lt _ (by norm_num)
  generalize hk : n % 10 = k
  rw [hk] at h
  interval_cases k <;> decide

theorem digVal_digitChar (n : ℕ) : digVal (digitChar n) = n % 10 := by
  unfold digitChar digVal
  have h : n % 10 < 10 := Nat.mod_lt _ (by norm_num)
  generalize hk : n % 10 = k
  rw [hk] at h
  interval_cases k <;> decide

theorem digitsToNat_append (xs : List Char) (c : Char) :
    digitsToNat (xs ++ [c]) = 10 * digitsToNat xs + digVal c := by
  unfold digitsToNat
  rw [List.foldl_append]
  rfl

theorem decReprCore_spec :
    ∀ fuel n, n < fuel →
      (∀ c ∈ decReprCore fuel n, isDig c = true) ∧ decReprCore fuel n ≠ [] ∧
        digitsToNat (decReprCore fuel n) = n := by
  intro fuel
  induction fuel with
  | zero => intro n h; omega
  | succ f ih =>
    intro n h
    by_cases h10 : n < 10
    · unfold decReprCore
      rw [if_pos h10]
      refine ⟨?_, by simp, ?_⟩
      · intro c hc
        rw [List.mem_singleton] at hc
        subst hc
        exact digitChar_isDig n
      · show digitsToNat ([] ++ [digitChar n]) = n
        rw [digitsToNat_append, digVal_digitChar]
        unfold digitsToNat
        simp
        omega
    · have hlt : n / 10 < n := Nat.div_lt_self (by omega) (by omega)
      obtain ⟨ha, hb, hc⟩ := ih (n / 10) (by omega)
      unfold decReprCore
      rw [if_neg h10]
      refine ⟨?_, by simp [hb], ?_⟩
      · intro c hcm
        rw [List.mem_append] at hcm
        rcases hcm with hcm | hcm
        · exact ha c hcm
        · rw [List.mem_singleton] at hcm
          subst hcm
          exact digitChar_isDig _
      · rw [digitsToNat_append, hc, digVal_digitChar]
        omega

theorem decReprL_digits (n : ℕ) : ∀ c ∈ decReprL n, isDig c = true :=
  (decReprCore_spec (n + 1) n (by omega)).1

theorem decReprL_ne_nil (n : ℕ) : decReprL n ≠ [] :=
  (decReprCore_spec (n + 1) n (by omega)).2.1

theorem digitsToNat_decReprL (n : ℕ) : digitsToNat (decReprL n) = n :=
  (decReprCore_spec (n + 1) n (by omega)).2.2

theorem decReprCore_length :
    ∀ fuel n k, n < fuel → n < 10 ^ k → 1 ≤ k → (decReprCore fuel n).length ≤ k := by
  intro fuel
  induction fuel with
  | zero => intro n k h; omega
  | succ f ih =>
    intro n k h hk h1
    by_cases h10 : n < 10
    · unfold decReprCore
      rw [if_pos h10]
      simpa using h1
    · have hlt : n / 10 < n := Nat.div_lt_self (by omega) (by omega)
      have hk2 : 2 ≤ k := by
        by_contra hc
        have : k = 1 := by omega
        subst this
        simp at hk
        omega
      have hdivk : n / 10 < 10 ^ (k - 1) := by
        rw [Nat.div_lt_iff_lt_mul (by norm_num)]
        calc n < 10 ^ k := hk
          _ = 10 ^ (k - 1) * 10 := by
            rw [← pow_succ]
            congr 1
            omega
      have := ih (n / 10) (k - 1) (by omega) hdivk (by omega)
      unfold decReprCore
      rw [if_neg h10]
      rw [List.length_append]
      simp only [List.length_singleton]
      omega

theorem decReprL_length (n k : ℕ) (hk : n < 10 ^ k) (h1 : 1 ≤ k) :
    (decReprL n).length ≤ k :=
  decReprCore_length (n + 1) n k (by omega) hk h1

theorem digitsToNat_replicate_zero (z : ℕ) (cs : List Char) :
    digitsToNat (List.replicate z '0' ++ cs) = digitsToNat cs := by
  induction z with
  | zero => rfl
  | succ m ih =>
    rw [List.replicate_succ, List.cons_append]
    show List.foldl _ (10 * 0 + digVal '0') _ = _
    have : 10 * 0 + digVal '0' = 0 := by decide
    rw [this]
    exact ih

theorem digitsToNat_padZeros (w : ℕ) (cs : List Char) :
    digitsToNat (padZeros w cs) = digitsToNat cs :=
  digitsToNat_replicate_zero _ cs

theorem padZeros_digits (w : ℕ) (cs : List Char) (h : ∀ c ∈ cs, isDig c = true) :
    ∀ c ∈ padZeros w cs, isDig c = true := by
  intro c hc
  unfold padZeros at hc
  rw [List.mem_append] at hc
  rcases hc with hc | hc
  · rw [List.eq_of_mem_replicate hc]
    decide
  · exact h c hc

theorem padZeros_length (w : ℕ) (cs : List Char) (h : cs.length ≤ w) :
    (padZeros w cs).length = w := by
  unfold padZeros
  rw [List.length_append, List.length_replicate]
  omega

/-! ### Theorems: character classes -/

theorem isDig_bounds {c : Char} (h : isDig c = true) : 48 ≤ c.toNat ∧ c.toNat ≤ 57 := by
  unfold isDig at h
  rw [Bool.and_eq_true, decide_eq_true_iff, decide_eq_true_iff] at h
  exact h

theorem isDig_ne_minus {c : Char} (h : isDig c = true) : c ≠ '-' := by
  intro he
  subst he
  exact absurd h (by decide)

theorem isDig_ne_plus {c : Char} (h : isDig c = true) : c ≠ '+' := by
  intro he
  subst he
  exact absurd h (by decide)

theorem isDig_ne_dot {c : Char} (h : isDig c = true) : c ≠ '.' := by
  intro he
  subst he
  exact absurd h (by decide)

theorem isDig_ne_comma {c : Char} (h : isDig c = true) : c ≠ ',' := by
  intro he
  subst he
  exact absurd h (by decide)

theorem isDig_not_ws {c : Char} (h : isDig c = true) : jsIsWs c = false := by
  obtain ⟨h1, h2⟩ := isDig_bounds h
  unfold jsIsWs
  simp only [Bool.or_eq_false_iff, decide_eq_false_iff_not]
  omega

theorem isDig_dot_false : isDig '.' = false := by decide

/-! ### Theorems: span, trim and sign parsing -/

theorem takeWhile_app (p : Char → Bool) (xs ys : List Char) (hx : ∀ c ∈ xs, p c = true)
    (hy : ∀ c ∈ ys.head?, p c = false) : (xs ++ ys).takeWhile p = xs := by
  induction xs with
  | nil =>
    simp only [List.nil_append]
    cases ys with
    | nil => rfl
    | cons y t =>
      rw [List.takeWhile_cons, hy y (by simp)]
      simp
  | cons x t ih =>
    rw [List.cons_append, List.takeWhile_cons, hx x (by simp)]
    simp only [if_true]
    rw [ih (fun c hc => hx c (by simp [hc]))]

theorem dropWhile_app (p : Char → Bool) (xs ys : List Char) (hx : ∀ c ∈ xs, p c = true)
    (hy : ∀ c ∈ ys.head?, p c = false) : (xs ++ ys).dropWhile p = ys := by
  induction xs with
  | nil =>
    simp only [List.nil_append]
    cases ys with
    | nil => rfl
    | cons y t =>
      rw [List.dropWhile_cons, hy y (by simp)]
      simp
  | cons x t ih =>
    rw [List.cons_append, List.dropWhile_cons, hx x (by simp)]
    simp only [if_true]
    exact ih (fun c hc => hx c (by simp [hc]))

theorem span_app (p : Char → Bool) (xs ys : List Char) (hx : ∀ c ∈ xs, p c = true)
    (hy : ∀ c ∈ ys.head?, p c = false) : (xs ++ ys).span p = (xs, ys) := by
  rw [List.span_eq_take_drop, takeWhile_app p xs ys hx hy, dropWhile_app p xs ys hx hy]

theorem dropWhile_no (p : Char → Bool) (cs : List Char) (h : ∀ c ∈ cs, p c = false) :
    cs.dropWhile p = cs := by
  cases cs with
  | nil => rfl
  | cons c t =>
    rw [List.dropWhile_cons, h c (by simp)]
    simp

theorem trimList_noop (cs : List Char) (h : ∀ c ∈ cs, jsIsWs c = false) : trimList cs = cs := by
  unfold trimList
  rw [dropWhile_no _ _ h, dropWhile_no, List.reverse_reverse]
  intro c hc
  exact h c (List.mem_reverse.mp hc)

theorem parseSignOpt_no (cs : List Char) (h : ∀ c ∈ cs.head?, c ≠ '-' ∧ c ≠ '+') :
    parseSignOpt cs = (false, cs) := by
  unfold parseSignOpt
  split
  · next rest => exact absurd rfl (h '-' rfl).1
  · next rest => exact absurd rfl (h '+' rfl).2
  · rfl

theorem takeWhile_all (p : Char → Bool) (cs : List Char) (hx : ∀ c ∈ cs, p c = true) :
    cs.takeWhile p = cs := by
  induction cs with
  | nil => rfl
  | cons x t ih =>
    rw [List.takeWhile_cons, hx x (by simp)]
    simp only [if_true]
    rw [ih (fun c hc => hx c (by simp [hc]))]

theorem dropWhile_all (p : Char → Bool) (cs : List Char) (hx : ∀ c ∈ cs, p c = true) :
    cs.dropWhile p = [] := by
  induction cs with
  | nil => rfl
  | cons x t ih =>
    rw [List.dropWhile_cons, hx x (by simp)]
    simp only [if_true]
    exact ih (fun c hc => hx c (by simp [hc]))

theorem span_all (p : Char → Bool) (cs : List Char) (hx : ∀ c ∈ cs, p c = true) :
    cs.span p = (cs, []) := by
  rw [List.span_eq_take_drop, takeWhile_all p cs hx, dropWhile_all p cs hx]

theorem allDigits_of {cs : List Char} (h : ∀ c ∈ cs, isDig c = true) : allDigits cs = true := by
  unfold allDigits
  rw [List.all_eq_true]
  exact h

/-! ### Theorems: parsing formatted numbers back -/

theorem jsNumberList_core (ip fp : List Char) (hip : ∀ c ∈ ip, isDig c = true)
    (hfp : ∀ c ∈ fp, isDig c = true) (hne : ip ≠ []) :
    jsNumberList (ip ++ '.' :: fp) =
      some ((JsQ.ofNat (digitsToNat ip)).add ((JsQ.ofNat (digitsToNat fp)).divPow10 fp.length)) := by
  obtain ⟨i0, t, rfl⟩ := List.exists_cons_of_ne_nil hne
  have hsg : parseSignOpt ((i0 :: t) ++ '.' :: fp) = (false, (i0 :: t) ++ '.' :: fp) := by
    apply parseSignOpt_no
    intro c hc
    simp only [List.cons_append, List.head?_cons, Option.mem_def, Option.some.injEq] at hc
    subst hc
    exact ⟨isDig_ne_minus (hip i0 (by simp)), isDig_ne_plus (hip i0 (by simp))⟩
  have hspan1 : List.span isDig ((i0 :: t) ++ '.' :: fp) = (i0 :: t, '.' :: fp) := by
    apply span_app isDig (i0 :: t) ('.' :: fp) hip
    intro c hc
    simp only [List.head?_cons, Option.mem_def, Option.some.injEq] at hc
    subst hc
    decide
  have hfrac : jsNumFracPart ('.' :: fp) = (fp, []) := by
    show fp.span isDig = (fp, [])
    exact span_all isDig fp hfp
  unfold jsNumberList
  rw [hsg]
  simp only [hspan1, hfrac]
  rw [if_neg (by simp)]
  rfl

theorem jsNumberList_core_neg (ip fp : List Char) (hip : ∀ c ∈ ip, isDig c = true)
    (hfp : ∀ c ∈ fp, isDig c = true) (hne : ip ≠ []) :
    jsNumberList ('-' :: (ip ++ '.' :: fp)) =
      some (((JsQ.ofNat (digitsToNat ip)).add
        ((JsQ.ofNat (digitsToNat fp)).divPow10 fp.length)).neg) := by
  obtain ⟨i0, t, rfl⟩ := List.exists_cons_of_ne_nil hne
  have hsg : parseSignOpt ('-' :: ((i0 :: t) ++ '.' :: fp)) = (true, (i0 :: t) ++ '.' :: fp) := rfl
  have hspan1 : List.span isDig ((i0 :: t) ++ '.' :: fp) = (i0 :: t, '.' :: fp) := by
    apply span_app isDig (i0 :: t) ('.' :: fp) hip
    intro c hc
    simp only [List.head?_cons, Option.mem_def, Option.some.injEq] at hc
    subst hc
    decide
  have hfrac : jsNumFracPart ('.' :: fp) = (fp, []) := by
    show fp.span isDig = (fp, [])
    exact span_all isDig fp hfp
  unfold jsNumberList
  rw [hsg]
  simp only [hspan1, hfrac]
  rw [if_neg (by simp)]
  rfl

theorem jsNumber_mk (l : List Char) (hws : ∀ c ∈ l, jsIsWs c = false) (hne : l ≠ []) :
    jsNumber (String.mk l) = jsNumberList l := by
  unfold jsNumber
  rw [show (String.mk l).toList = l from rfl, trimList_noop l hws, if_neg hne]

theorem fixedDigits_eq (n f : ℕ) :
    fixedDigits n f = decReprL (n / 10 ^ f) ++ '.' :: padZeros f (decReprL (n % 10 ^ f)) := rfl

theorem fixedDigits_no_ws (n f : ℕ) : ∀ c ∈ fixedDigits n f, jsIsWs c = false := by
  intro c hc
  rw [fixedDigits_eq, List.mem_append, List.mem_cons] at hc
  rcases hc with hc | hc | hc
  · exact isDig_not_ws (decReprL_digits _ c hc)
  · subst hc
    decide
  · exact isDig_not_ws (padZeros_digits _ _ (decReprL_digits _) c hc)

theorem fixedDigits_no_comma (n f : ℕ) : ∀ c ∈ fixedDigits n f, c ≠ ',' := by
  intro c hc
  rw [fixedDigits_eq, List.mem_append, List.mem_cons] at hc
  rcases hc with hc | hc | hc
  · exact isDig_ne_comma (decReprL_digits _ c hc)
  · subst hc
    decide
  · exact isDig_ne_comma (padZeros_digits _ _ (decReprL_digits _) c hc)

theorem jsToFixed_eq_small (f : ℕ) (x : JsQ) (hx : |x.toRat| < 10 ^ 21) :
    jsToFixed f x = String.mk ((if x.lt (JsQ.ofInt 0) = true then ['-'] else []) ++
      fixedDigits (jsRound (x.absQ.mulPow10 f)).toNat f) := by
  unfold jsToFixed
  have hle : (JsQ.ofInt ((10 : ℤ) ^ 21)).le x.absQ = false := by
    rw [JsQ.le_false_iff, JsQ.toRat_absQ, JsQ.toRat_ofInt]
    push_cast
    exact hx
  simp only [hle, Bool.false_eq_true, if_false]

theorem jsRound_nonneg (a : JsQ) (h : 0 ≤ a.toRat) : 0 ≤ jsRound a := by
  rw [jsRound_eq]
  rw [Int.floor_nonneg]
  linarith

theorem toRat_mant (a b k : ℕ) :
    ((JsQ.ofNat a).add ((JsQ.ofNat b).divPow10 k)).toRat = (a : ℚ) + (b : ℚ) / 10 ^ k := by
  rw [JsQ.toRat_add, JsQ.toRat_ofNat, JsQ.toRat_divPow10, JsQ.toRat_ofNat]

theorem mant_val (m f : ℕ) :
    ((m / 10 ^ f : ℕ) : ℚ) + ((m % 10 ^ f : ℕ) : ℚ) / 10 ^ f = (m : ℚ) / 10 ^ f := by
  have h10 : ((10 : ℚ) ^ f) ≠ 0 := by positivity
  have hdm : 10 ^ f * (m / 10 ^ f) + m % 10 ^ f = m := Nat.div_add_mod m (10 ^ f)
  field_simp
  have := congrArg (fun z : ℕ => (z : ℚ)) hdm
  push_cast at this
  linarith

theorem padZeros_decRepr_length (m f : ℕ) (hf : 1 ≤ f) (hm : m < 10 ^ f) :
    (padZeros f (decReprL m)).length = f :=
  padZeros_length f _ (decReprL_length m f hm hf)

theorem jsNumber_toFixed (f : ℕ) (hf : 1 ≤ f) (x : JsQ) (hx : |x.toRat| < 10 ^ 21) :
    ∃ q, jsNumber (jsToFixed f x) = some q ∧
      q.toRat = (if x.lt (JsQ.ofInt 0) = true then -1 else 1) *
        ((jsRound (x.absQ.mulPow10 f) : ℤ) : ℚ) / 10 ^ f := by
  rw [jsToFixed_eq_small f x hx]
  have hmnn : 0 ≤ jsRound (x.absQ.mulPow10 f) := by
    apply jsRound_nonneg
    rw [JsQ.toRat_mulPow10, JsQ.toRat_absQ]
    positivity
  set m : ℕ := (jsRound (x.absQ.mulPow10 f)).toNat with hmdef
  have hmz : ((m : ℕ) : ℚ) = ((jsRound (x.absQ.mulPow10 f) : ℤ) : ℚ) := by
    rw [hmdef]
    exact_mod_cast congrArg (fun z : ℤ => (z : ℚ)) (Int.toNat_of_nonneg hmnn)
  have hmod : m % 10 ^ f < 10 ^ f := Nat.mod_lt _ (by positivity)
  have hlen := padZeros_decRepr_length (m % 10 ^ f) f hf hmod
  have hcore :
      jsNumberList (decReprL (m / 10 ^ f) ++ '.' :: padZeros f (decReprL (m % 10 ^ f))) =
        some ((JsQ.ofNat (digitsToNat (decReprL (m / 10 ^ f)))).add
          ((JsQ.ofNat (digitsToNat (padZeros f (decReprL (m % 10 ^ f))))).divPow10
            (padZeros f (decReprL (m % 10 ^ f))).length)) :=
    jsNumberList_core _ _ (decReprL_digits _) (padZeros_digits _ _ (decReprL_digits _))
      (decReprL_ne_nil _)
  have hval :
      ((JsQ.ofNat (digitsToNat (decReprL (m / 10 ^ f)))).add
        ((JsQ.ofNat (digitsToNat (padZeros f (decReprL (m % 10 ^ f))))).divPow10
          (padZeros f (decReprL (m % 10 ^ f))).length)).toRat = (m : ℚ) / 10 ^ f := by
    rw [toRat_mant, hlen, digitsToNat_decReprL, digitsToNat_padZeros, digitsToNat_decReprL]
    exact mant_val m f
  have hfdne : fixedDigits m f ≠ [] := by
    rw [fixedDigits_eq]
    intro hnil
    exact decReprL_ne_nil (m / 10 ^ f) (List.append_eq_nil.mp hnil).1
  rcases hsg : x.lt (JsQ.ofInt 0) with hv | hv
  · refine ⟨(JsQ.ofNat (digitsToNat (decReprL (m / 10 ^ f)))).add
      ((JsQ.ofNat (digitsToNat (padZeros f (decReprL (m % 10 ^ f))))).divPow10
        (padZeros f (decReprL (m % 10 ^ f))).length), ?_, ?_⟩
    · rw [if_neg (by simp), List.nil_append,
        jsNumber_mk _ (fixedDigits_no_ws m f) hfdne, fixedDigits_eq]
      exact hcore
    · rw [hval, hmz]
      norm_num
  · refine ⟨((JsQ.ofNat (digitsToNat (decReprL (m / 10 ^ f)))).add
      ((JsQ.ofNat (digitsToNat (padZeros f (decReprL (m % 10 ^ f))))).divPow10
        (padZeros f (decReprL (m % 10 ^ f))).length)).neg, ?_, ?_⟩
    · have hws : ∀ c ∈ ['-'] ++ fixedDigits m f, jsIsWs c = false := by
        intro c hc
        rw [List.singleton_append, List.mem_cons] at hc
        rcases hc with hc | hc
        · subst hc
          decide
        · exact fixedDigits_no_ws m f c hc
      rw [if_pos rfl, jsNumber_mk _ hws (by simp), List.singleton_append, fixedDigits_eq]
      exact jsNumberList_core_neg _ _ (decReprL_digits _) (padZeros_digits _ _ (decReprL_digits _))
        (decReprL_ne_nil _)
    · rw [JsQ.toRat_neg, hval, hmz, if_pos rfl]
      ring

/-! ### Theorems: shapes of formatted numbers -/

theorem dropMinus_cons (c : Char) (rest : List Char) :
    dropMinus (c :: rest) = if c = '-' then rest else c :: rest := rfl

theorem amountCore_shape (ip fp : List Char) (hip : ∀ c ∈ ip, isDig c = true)
    (hfp : ∀ c ∈ fp, isDig c = true) (hne : ip ≠ []) (hlen : fp.length = 2) :
    amountCore (ip ++ '.' :: fp) = true := by
  have hspan : (ip ++ '.' :: fp).span isDig = (ip, '.' :: fp) := by
    apply span_app isDig ip ('.' :: fp) hip
    intro c hc
    simp only [List.head?_cons, Option.mem_def, Option.some.injEq] at hc
    subst hc
    decide
  obtain ⟨d1, d2, rfl⟩ := List.length_eq_two.mp hlen
  unfold amountCore
  rw [hspan]
  simp [hne, hfp d1 (by simp), hfp d2 (by simp)]

theorem fiveCore_shape (ip fp : List Char) (hip : ∀ c ∈ ip, isDig c = true)
    (hfp : ∀ c ∈ fp, isDig c = true) (hne : ip ≠ []) (hlen : fp.length = 5) :
    fiveCore (ip ++ '.' :: fp) = true := by
  have hspan : (ip ++ '.' :: fp).span isDig = (ip, '.' :: fp) := by
    apply span_app isDig ip ('.' :: fp) hip
    intro c hc
    simp only [List.head?_cons, Option.mem_def, Option.some.injEq] at hc
    subst hc
    decide
  unfold fiveCore
  rw [hspan]
  simp [hne, allDigits_of hfp, hlen]

theorem matchesAmount_toFixed (x : JsQ) (hx : |x.toRat| < 10 ^ 21) :
    matchesAmount (jsToFixed 2 x) = true := by
  rw [jsToFixed_eq_small 2 x hx]
  set m : ℕ := (jsRound (x.absQ.mulPow10 2)).toNat with hmdef
  have hmod : m % 10 ^ 2 < 10 ^ 2 := Nat.mod_lt _ (by positivity)
  have hshape : amountCore (fixedDigits m 2) = true := by
    rw [fixedDigits_eq]
    exact amountCore_shape _ _ (decReprL_digits _) (padZeros_digits _ _ (decReprL_digits _))
      (decReprL_ne_nil _) (padZeros_decRepr_length _ 2 (by norm_num) hmod)
  unfold matchesAmount
  rcases hsg : x.lt (JsQ.ofInt 0) with hv | hv
  · rw [if_neg (by simp), List.nil_append]
    show amountCore (dropMinus (fixedDigits m 2)) = true
    obtain ⟨i0, t, hit⟩ := List.exists_cons_of_ne_nil (decReprL_ne_nil (m / 10 ^ 2))
    rw [fixedDigits_eq, hit, List.cons_append, dropMinus_cons,
      if_neg (isDig_ne_minus (decReprL_digits (m / 10 ^ 2) i0 (by rw [hit]; simp)))]
    rw [fixedDigits_eq, hit, List.cons_append] at hshape
    exact hshape
  · rw [if_pos rfl, List.singleton_append]
    show amountCore (dropMinus ('-' :: fixedDigits m 2)) = true
    rw [dropMinus_cons, if_pos rfl]
    exact hshape

theorem fiveFrac_toFixed (x : JsQ) (hx : |x.toRat| < 10 ^ 21) :
    fiveFracShape (jsToFixed 5 x) = true := by
  rw [jsToFixed_eq_small 5 x hx]
  set m : ℕ := (jsRound (x.absQ.mulPow10 5)).toNat with hmdef
  have hmod : m % 10 ^ 5 < 10 ^ 5 := Nat.mod_lt _ (by positivity)
  have hshape : fiveCore (fixedDigits m 5) = true := by
    rw [fixedDigits_eq]
    exact fiveCore_shape _ _ (decReprL_digits _) (padZeros_digits _ _ (decReprL_digits _))
      (decReprL_ne_nil _) (padZeros_decRepr_length _ 5 (by norm_num) hmod)
  unfold fiveFracShape
  rcases hsg : x.lt (JsQ.ofInt 0) with hv | hv
  · rw [if_neg (by simp), List.nil_append]
    show fiveCore (dropMinus (fixedDigits m 5)) = true
    obtain ⟨i0, t, hit⟩ := List.exists_cons_of_ne_nil (decReprL_ne_nil (m / 10 ^ 5))
    rw [fixedDigits_eq, hit, List.cons_append, dropMinus_cons,
      if_neg (isDig_ne_minus (decReprL_digits (m / 10 ^ 5) i0 (by rw [hit]; simp)))]
    rw [fixedDigits_eq, hit, List.cons_append] at hshape
    exact hshape
  · rw [if_pos rfl, List.singleton_append]
    show fiveCore (dropMinus ('-' :: fixedDigits m 5)) = true
    rw [dropMinus_cons, if_pos rfl]
    exact hshape

/-! ### Theorems: cent values round-trip through the 2-decimal format -/

theorem fixedDigits_ne_nil (n f : ℕ) : fixedDigits n f ≠ [] := by
  rw [fixedDigits_eq]
  intro h
  exact decReprL_ne_nil (n / 10 ^ f) (List.append_eq_nil.mp h).1

theorem toFixed_ne_empty (f : ℕ) (x : JsQ) (hx : |x.toRat| < 10 ^ 21) : jsToFixed f x ≠ "" := by
  rw [jsToFixed_eq_small f x hx]
  intro he
  have h2 : ((if x.lt (JsQ.ofInt 0) = true then ['-'] else []) ++
      fixedDigits (jsRound (x.absQ.mulPow10 f)).toNat f) = ([] : List Char) :=
    congrArg String.data he
  rw [List.append_eq_nil] at h2
  exact fixedDigits_ne_nil _ _ h2.2

theorem toFixed_no_comma (f : ℕ) (x : JsQ) (hx : |x.toRat| < 10 ^ 21) :
    ∀ c ∈ (jsToFixed f x).toList, c ≠ ',' := by
  rw [jsToFixed_eq_small f x hx]
  intro c hc
  rw [show (String.mk ((if x.lt (JsQ.ofInt 0) = true then ['-'] else []) ++
    fixedDigits (jsRound (x.absQ.mulPow10 f)).toNat f)).toList =
    (if x.lt (JsQ.ofInt 0) = true then ['-'] else []) ++
    fixedDigits (jsRound (x.absQ.mulPow10 f)).toNat f from rfl, List.mem_append] at hc
  rcases hc with hc | hc
  · rcases hsg : x.lt (JsQ.ofInt 0) with hv | hv <;> rw [hsg] at hc
    · simp at hc
    · rw [if_pos rfl, List.mem_singleton] at hc
      subst hc
      decide
  · exact fixedDigits_no_comma _ _ c hc

theorem stripCommas_noop (s : String) (h : ∀ c ∈ s.toList, c ≠ ',') : stripCommas s = s := by
  unfold stripCommas strOf
  rw [List.filter_eq_self.mpr (fun a ha => decide_eq_true (h a ha))]
  rfl

theorem jsOr_ne (s t : String) (h : s ≠ "") : jsOr s t = s := if_neg h

theorem floor_intCast_add_half (z : ℤ) : ⌊(z : ℚ) + 1 / 2⌋ = z := by
  rw [add_comm, Int.floor_add_int]
  norm_num

theorem jsNumber_fixed2_cents (c : ℤ) (hc : |c| < 10 ^ 23) :
    ∃ q, jsNumber (jsToFixed 2 ((JsQ.ofInt c).divPow10 2)) = some q ∧ q.toRat = (c : ℚ) / 100 := by
  set x := (JsQ.ofInt c).divPow10 2 with hxdef
  have hxval : x.toRat = (c : ℚ) / 100 := by
    rw [hxdef, JsQ.toRat_divPow10, JsQ.toRat_ofInt]
    norm_num
  have habs : |x.toRat| < 10 ^ 21 := by
    rw [hxval, abs_div]
    rw [abs_of_pos (by norm_num : (0 : ℚ) < 100)]
    rw [div_lt_iff (by norm_num : (0 : ℚ) < 100)]
    calc |(c : ℚ)| = ((|c| : ℤ) : ℚ) := by rw [Int.cast_abs]
      _ < ((10 ^ 23 : ℤ) : ℚ) := by exact_mod_cast hc
      _ = 10 ^ 21 * 100 := by norm_num
  have hround : jsRound (x.absQ.mulPow10 2) = |c| := by
    rw [jsRound_eq, JsQ.toRat_mulPow10, JsQ.toRat_absQ, hxval]
    have : |(c : ℚ) / 100| * 10 ^ 2 = ((|c| : ℤ) : ℚ) := by
      rw [abs_div, abs_of_pos (by norm_num : (0 : ℚ) < 100), Int.cast_abs]
      ring
    rw [this, floor_intCast_add_half]
  obtain ⟨q, hq, hv⟩ := jsNumber_toFixed 2 (by norm_num) x habs
  refine ⟨q, hq, ?_⟩
  rw [hv, hround]
  rcases hcs : x.lt (JsQ.ofInt 0) with hv2 | hv2
  · have h0 : (JsQ.ofInt 0).toRat ≤ x.toRat := (JsQ.lt_false_iff x (JsQ.ofInt 0)).mp hcs
    rw [JsQ.toRat_ofInt] at h0
    norm_num at h0
    have hc0 : 0 ≤ c := by
      rw [hxval] at h0
      by_contra hneg
      push_neg at hneg
      have : (c : ℚ) < 0 := by exact_mod_cast hneg
      nlinarith
    rw [if_neg (by simp), abs_of_nonneg hc0]
    ring
  · have h0 : x.toRat < (JsQ.ofInt 0).toRat := (JsQ.lt_iff x (JsQ.ofInt 0)).mp hcs
    rw [JsQ.toRat_ofInt] at h0
    norm_num at h0
    have hc0 : c < 0 := by
      rw [hxval] at h0
      by_contra hneg
      push_neg at hneg
      have : (0 : ℚ) ≤ (c : ℚ) := by exact_mod_cast hneg
      nlinarith
    rw [if_pos rfl, abs_of_neg hc0]
    push_cast
    ring

theorem cents_of_centQ (q : JsQ) (c : ℤ) (h : q.toRat = (c : ℚ) / 100) :
    jsRound (q.mulPow10 2) = c := by
  rw [jsRound_eq, JsQ.toRat_mulPow10, h]
  have : (c : ℚ) / 100 * 10 ^ 2 = (c : ℚ) := by ring
  rw [this, floor_intCast_add_half]

theorem amountToNumber_cents (c : ℤ) (hc : |c| < 10 ^ 23) :
    (amountToNumber (jsToFixed 2 ((JsQ.ofInt c).divPow10 2))).toRat = (c : ℚ) / 100 := by
  obtain ⟨q, hq, hv⟩ := jsNumber_fixed2_cents c hc
  have habs : |((JsQ.ofInt c).divPow10 2).toRat| < 10 ^ 21 := by
    rw [JsQ.toRat_divPow10, JsQ.toRat_ofInt]
    rw [show (10 : ℚ) ^ 2 = 100 from by norm_num, abs_div,
      abs_of_pos (by norm_num : (0 : ℚ) < 100), div_lt_iff (by norm_num : (0 : ℚ) < 100)]
    calc |(c : ℚ)| = ((|c| : ℤ) : ℚ) := by rw [Int.cast_abs]
      _ < ((10 ^ 23 : ℤ) : ℚ) := by exact_mod_cast hc
      _ = 10 ^ 21 * 100 := by norm_num
  unfold amountToNumber
  rw [jsOr_ne _ _ (toFixed_ne_empty 2 _ habs), stripCommas_noop _ (toFixed_no_comma 2 _ habs),
    hq]
  show ((JsQ.ofInt (jsRound (q.mulPow10 2))).divPow10 2).toRat = (c : ℚ) / 100
  rw [cents_of_centQ q c hv, JsQ.toRat_divPow10, JsQ.toRat_ofInt]
  norm_num

theorem toFixed2_cents_inj (c d : ℤ) (hcb : |c| < 10 ^ 23) (hdb : |d| < 10 ^ 23)
    (he : jsToFixed 2 ((JsQ.ofInt c).divPow10 2) = jsToFixed 2 ((JsQ.ofInt d).divPow10 2)) :
    c = d := by
  obtain ⟨q, hq, hv⟩ := jsNumber_fixed2_cents c hcb
  obtain ⟨q', hq', hv'⟩ := jsNumber_fixed2_cents d hdb
  rw [he, hq'] at hq
  have hqq : q' = q := Option.some.inj hq
  have hval : (d : ℚ) / 100 = (c : ℚ) / 100 := by rw [← hv, ← hv', hqq]
  have hcd : (c : ℚ) = (d : ℚ) := by linarith
  exact_mod_cast hcd

/-! ### Theorems: the currency fallback chains are dead code -/

theorem lookup_val_ne_empty :
    ∀ (l : List (String × String)), (∀ p ∈ l, p.2 ≠ "") → ∀ k v, l.lookup k = some v → v ≠ "" := by
  intro l
  induction l with
  | nil =>
    intro _ k v h
    simp [List.lookup] at h
  | cons a t ih =>
    intro hl k v h
    rw [List.lookup] at h
    cases hbeq : (k == a.1) with
    | true =>
      rw [hbeq] at h
      simp only [Option.some.injEq] at h
      subst h
      exact hl a (by simp)
    | false =>
      rw [hbeq] at h
      exact ih (fun p hp => hl p (by simp [hp])) k v h

theorem isIso3_ne_empty {s : String} (h : isIso3 s = true) : s ≠ "" := by
  unfold isIso3 at h
  intro he
  subst he
  simp at h

theorem normalizeCurrency_ne_empty (s : String) : normalizeCurrency s ≠ "" := by
  unfold normalizeCurrency
  dsimp only
  split
  · decide
  · split
    · next iso hiso =>
      exact lookup_val_ne_empty SYMBOL_TO_ISO (by decide) _ iso hiso
    · split
      · next hiso => exact isIso3_ne_empty hiso
      · split
        · next p hp =>
          have hmem := List.mem_of_find?_eq_some hp
          have : p.2 ≠ "" := by
            simp only [SYMBOL_TO_ISO, List.mem_cons, List.not_mem_nil, or_false] at hmem
            rcases hmem with h | h | h | h | h | h | h <;> subst h <;> decide
          exact this
        · decide

theorem jsOr_of_ne_empty (a b : String) (h : a ≠ "") : jsOr a b = a := if_neg h

theorem pdfRowCurrency_eq (amtRaw headerCurrency : String) :
    pdfRowCurrency amtRaw headerCurrency = normalizeCurrency amtRaw := by
  unfold pdfRowCurrency
  dsimp only
  rw [jsOr_of_ne_empty _ _ (normalizeCurrency_ne_empty amtRaw),
    jsOr_of_ne_empty _ _ (normalizeCurrency_ne_empty amtRaw)]

theorem rtnHeaderCurrency_eq (rowCurs : List (Option String)) (metaCurrency : Option String) :
    rtnHeaderCurrency rowCurs metaCurrency = normalizeCurrency (metaCurrency.getD "") := by
  unfold rtnHeaderCurrency
  dsimp only
  rw [jsOr_of_ne_empty _ _ (normalizeCurrency_ne_empty _),
    jsOr_of_ne_empty _ _ (normalizeCurrency_ne_empty _)]

/-! ### Claim theorems C1-C4 -/

/-- C1: the claim that toISODate reads every numeric triple with first
component at most 12 as month-day-year fails on the code: when the second
component exceeds 12 the month-day-year branch condition (first component
above 12, or second at most 12) is false and the named-month patterns cannot
match a numeric triple, so toISODate("07/31/2025") evaluates to the unknown
sentinel instead of the documented "2025-07-31"; the neighboring inputs show
the day-month-year branch and the both-at-most-12 tie-break behaving as
claimed. -/
theorem toISODate_mdy_gap :
    toISODate "07/31/2025" = "unknown" ∧ toISODate "31/07/2025" = "2025-07-31" ∧
    toISODate "05/06/2025" = "2025-05-06" := by
  refine ⟨?_, ?_, ?_⟩ <;> decide

/-- C2: the header-currency fallback of the PDF text path is dead code:
normalizeCurrency is total with the non-empty unknown sentinel, so the JS
truthiness chain txnCur-or-headerCurrency-or-unknown at
src/lib/pdf-text-parser.ts line 107 always returns normalizeCurrency of the
amount token; in particular a row whose amount token carries no currency
symbol gets the unknown currency even when the header currency resolved to a
strict ISO code, contradicting the claimed row-header-unknown precedence. -/
theorem pdfRowCurrency_header_dead :
    (∀ amtRaw headerCurrency, pdfRowCurrency amtRaw headerCurrency = normalizeCurrency amtRaw) ∧
    normalizeCurrency "12.34" = "unknown" ∧ normalizeCurrency "USD" = "USD" ∧
    pdfRowCurrency "12.34" "USD" = "unknown" :=
  ⟨pdfRowCurrency_eq, by decide, by decide, by decide⟩

/-- C3: the majority-currency inference of rowsToNormalized is dead code:
normalizeCurrency of the explicit meta currency is never the empty string,
so the chain explicit-or-inferred-or-unknown at
src/lib/rows-to-normalized.ts line 54 always returns the normalized explicit
currency; with no meta currency and rows whose majority ISO currency is USD
the header currency is the unknown sentinel, not USD as claimed. -/
theorem rtnHeaderCurrency_majority_dead :
    (∀ rowCurs metaCurrency,
      rtnHeaderCurrency rowCurs metaCurrency = normalizeCurrency (metaCurrency.getD "")) ∧
    rtnHeaderCurrency [some "USD", some "USD"] none = "unknown" ∧
    majorityIsoCurrency ([some "USD", some "USD"].map rtnTxnCurrency) = "USD" :=
  ⟨rtnHeaderCurrency_eq, by decide, by decide⟩

/-- C4 (amended): normalizeAmount output matches the signed two-decimal
pattern for every input whose cleaned numeric value stays below 10^20 in
magnitude.  The margin below the 10^21 exponential threshold of toFixed
keeps the statement true of the real program as well: a binary64 double of
a sub-10^20 value cannot round past 10^21, whereas values between the two
bounds can (Number("999999999999999999999.99") is exactly the double 1e21,
whose toFixed is exponential).  At the threshold the pattern fails (see the
counterexample). -/
theorem normalizeAmount_pattern (s : String)
    (hb : optBelow20 (jsNumber (strOf (cleanAmountChars (jsTrim s).toList))) = true) :
    matchesAmount (normalizeAmount s) = true := by
  unfold normalizeAmount
  dsimp only
  split
  · decide
  · split
    · decide
    · apply matchesAmount_toFixed
      have hbound :
          |((jsNumber (strOf (cleanAmountChars (jsTrim s).toList))).getD (JsQ.ofInt 0)).toRat|
            < 10 ^ 21 := by
        cases hn : jsNumber (strOf (cleanAmountChars (jsTrim s).toList)) with
        | none =>
          rw [Option.getD_none, JsQ.toRat_ofInt]
          norm_num
        | some q =>
          rw [Option.getD_some]
          unfold optBelow20 at hb
          rw [hn] at hb
          have hlt := (JsQ.lt_iff _ _).mp hb
          rw [JsQ.toRat_absQ, JsQ.toRat_ofInt] at hlt
          calc |q.toRat| < ((10 ^ 20 : ℤ) : ℚ) := hlt
            _ < 10 ^ 21 := by norm_num
      split
      · rw [JsQ.toRat_neg, JsQ.toRat_absQ, abs_neg, abs_abs]
        exact hbound
      · exact hbound

/-- C4 witness: the amended theorem applied at a concrete input with commas
and a fraction, whose cleaned value is far below the threshold. -/
theorem normalizeAmount_pattern_witness :
    optBelow20 (jsNumber (strOf (cleanAmountChars (jsTrim "1,234.56").toList))) = true ∧
    matchesAmount (normalizeAmount "1,234.56") = true :=
  ⟨by decide, normalizeAmount_pattern "1,234.56" (by decide)⟩

/-- C4 counterexample: a 22-digit integer amount reaches the 10^21 toFixed
threshold, the output is exponential notation, and the claimed pattern
fails. -/
theorem normalizeAmount_pattern_cex :
    matchesAmount (normalizeAmount "1000000000000000000000") = false := by decide

/-! ### Theorems: the scores stay in the unit interval with five decimals -/

theorem clamp01_bounds (x : JsQ) : 0 ≤ (clamp01 x).toRat ∧ (clamp01 x).toRat ≤ 1 := by
  unfold clamp01
  rw [JsQ.toRat_maxQ, JsQ.toRat_minQ, JsQ.toRat_ofInt, JsQ.toRat_ofInt]
  constructor
  · exact le_max_left _ _
  · apply max_le
    · norm_num
    · exact min_le_left _ _

theorem jsRound_unit_bounds (y : JsQ) (h0 : 0 ≤ y.toRat) (h1 : y.toRat ≤ 1) :
    0 ≤ jsRound (y.mulPow10 5) ∧ jsRound (y.mulPow10 5) ≤ 10 ^ 5 := by
  rw [jsRound_eq, JsQ.toRat_mulPow10]
  constructor
  · rw [Int.floor_nonneg]
    nlinarith
  · have hlt : ⌊y.toRat * 10 ^ 5 + 1 / 2⌋ < 10 ^ 5 + 1 := by
      rw [Int.floor_lt]
      push_cast
      nlinarith
    omega

theorem scoreOK_fixed5 (c : ℤ) (h0 : 0 ≤ c) (h1 : c ≤ 10 ^ 5) :
    scoreOK (jsToFixed 5 ((JsQ.ofInt c).divPow10 5)) = true := by
  set x := (JsQ.ofInt c).divPow10 5 with hxdef
  have hxval : x.toRat = (c : ℚ) / 10 ^ 5 := by
    rw [hxdef, JsQ.toRat_divPow10, JsQ.toRat_ofInt]
  have hcq : (0 : ℚ) ≤ (c : ℚ) ∧ (c : ℚ) ≤ 10 ^ 5 := by
    constructor <;> exact_mod_cast by assumption
  have habs : |x.toRat| < 10 ^ 21 := by
    rw [hxval, abs_div, abs_of_pos (by norm_num : (0 : ℚ) < 10 ^ 5),
      abs_of_nonneg hcq.1, div_lt_iff (by norm_num : (0 : ℚ) < 10 ^ 5)]
    nlinarith [hcq.2]
  have hsge : x.lt (JsQ.ofInt 0) = false := by
    rw [JsQ.lt_false_iff, JsQ.toRat_ofInt, hxval]
    push_cast
    positivity
  have hround : jsRound (x.absQ.mulPow10 5) = c := by
    rw [jsRound_eq, JsQ.toRat_mulPow10, JsQ.toRat_absQ, hxval,
      abs_div, abs_of_pos (by norm_num : (0 : ℚ) < 10 ^ 5), abs_of_nonneg hcq.1]
    have : (c : ℚ) / 10 ^ 5 * 10 ^ 5 = (c : ℚ) := by ring
    rw [this, floor_intCast_add_half]
  obtain ⟨q, hq, hv⟩ := jsNumber_toFixed 5 (by norm_num) x habs
  have hqval : q.toRat = (c : ℚ) / 10 ^ 5 := by
    rw [hv, hsge, hround]
    norm_num
  unfold scoreOK
  rw [hq]
  rw [Bool.and_eq_true, Bool.and_eq_true]
  refine ⟨⟨?_, ?_⟩, fiveFrac_toFixed x habs⟩
  · rw [JsQ.le_iff, JsQ.toRat_ofInt, hqval]
    push_cast
    positivity
  · rw [JsQ.le_iff, JsQ.toRat_ofInt, hqval]
    push_cast
    rw [div_le_one (by norm_num : (0 : ℚ) < 10 ^ 5)]
    nlinarith [hcq.2]

theorem scoreOK_to5 (x : JsQ) : scoreOK (to5 x) = true := by
  unfold to5
  obtain ⟨hc0, hc1⟩ := clamp01_bounds x
  obtain ⟨h0, h1⟩ := jsRound_unit_bounds (clamp01 x) hc0 hc1
  exact scoreOK_fixed5 _ h0 h1

theorem scoreInUnit_elim {o : Option JsQ} (h : scoreInUnit o = true) :
    ∃ q, o = some q ∧ 0 ≤ q.toRat ∧ q.toRat ≤ 1 := by
  cases o with
  | none => exact absurd h (by decide)
  | some q =>
    refine ⟨q, rfl, ?_, ?_⟩
    · unfold scoreInUnit at h
      rw [Bool.and_eq_true] at h
      have := (JsQ.le_iff _ _).mp h.1
      rw [JsQ.toRat_ofInt] at this
      exact_mod_cast this
    · unfold scoreInUnit at h
      rw [Bool.and_eq_true] at h
      have := (JsQ.le_iff _ _).mp h.2
      rw [JsQ.toRat_ofInt] at this
      exact_mod_cast this

theorem mapM_parse (rows : List DPRow)
    (hr : ∀ r ∈ rows, scoreInUnit (parseScore r.row_point) = true) :
    ∃ qs, rows.mapM (fun r => parseScore r.row_point) = some qs ∧ qs.length = rows.length ∧
      ∀ q ∈ qs, 0 ≤ q.toRat ∧ q.toRat ≤ 1 := by
  induction rows with
  | nil => exact ⟨[], rfl, rfl, by simp⟩
  | cons r t ih =>
    obtain ⟨q, hq, hq0, hq1⟩ := scoreInUnit_elim (hr r (by simp))
    obtain ⟨qs, hqs, hlen, hb⟩ := ih (fun r hr2 => hr r (by simp [hr2]))
    refine ⟨q :: qs, ?_, by simp [hlen], ?_⟩
    · rw [List.mapM_cons, hq, hqs]
      rfl
    · intro p hp
      rw [List.mem_cons] at hp
      rcases hp with hp | hp
      · subst hp
        exact ⟨hq0, hq1⟩
      · exact hb p hp

theorem toRat_foldl_add (qs : List JsQ) (a : JsQ) :
    (qs.foldl JsQ.add a).toRat = a.toRat + (qs.map JsQ.toRat).sum := by
  induction qs generalizing a with
  | nil => simp
  | cons q t ih =>
    rw [List.foldl_cons, ih, JsQ.toRat_add, List.map_cons, List.sum_cons]
    ring

theorem sum_unit_bounds (l : List ℚ) (h : ∀ q ∈ l, 0 ≤ q ∧ q ≤ 1) :
    0 ≤ l.sum ∧ l.sum ≤ l.length := by
  induction l with
  | nil => simp
  | cons q t ih =>
    obtain ⟨h0, h1⟩ := h q (by simp)
    obtain ⟨t0, t1⟩ := ih (fun p hp => h p (by simp [hp]))
    rw [List.sum_cons, List.length_cons]
    constructor
    · linarith
    · push_cast
      linarith

/-- C5 (amended): rowPointFrom and headerPointFrom always emit a string that
coerces to a value in the unit interval with exactly five fractional digits
(to5 clamps before formatting); docPointFrom does so whenever the stored
header and row points parse to values in the unit interval, as the pipeline
produces them; with adversarial stored points docPointFrom escapes the
interval (see the counterexample), and determinism holds by construction:
every scoring function, including the djb2 jitter of the concatenated
fields, is a pure function of its record argument. -/
theorem scorePoints_unit :
    (∀ r : RPRow, scoreOK (rowPointFrom r) = true) ∧
    (∀ h : HPHeader, scoreOK (headerPointFrom h) = true) ∧
    (∀ (h : DPHeader) (rows : List DPRow),
      scoreInUnit (parseScore h.row_point) = true →
      (∀ r ∈ rows, scoreInUnit (parseScore r.row_point) = true) →
      scoreOK (docPointFrom h rows) = true) := by
  refine ⟨?_, ?_, ?_⟩
  · intro r
    exact scoreOK_to5 _
  · intro h
    exact scoreOK_to5 _
  · intro h rows hh hr
    obtain ⟨hq0, hps, hq00, hq01⟩ := scoreInUnit_elim hh
    obtain ⟨qs, hmq, hlen, hqs⟩ := mapM_parse rows hr
    have hdb : docBase h rows = some ((hq0.add (if hl : rows.length = 0 then JsQ.ofInt 0
        else (qs.foldl JsQ.add (JsQ.ofInt 0)).divPos rows.length (Nat.pos_of_ne_zero hl))).divPos 2
        (by decide)) := by
      unfold docBase
      rw [hps, hmq]
      rfl
    have havgb : 0 ≤ (if hl : rows.length = 0 then JsQ.ofInt 0
        else (qs.foldl JsQ.add (JsQ.ofInt 0)).divPos rows.length
          (Nat.pos_of_ne_zero hl)).toRat ∧
        (if hl : rows.length = 0 then JsQ.ofInt 0
        else (qs.foldl JsQ.add (JsQ.ofInt 0)).divPos rows.length
          (Nat.pos_of_ne_zero hl)).toRat ≤ 1 := by
      by_cases hl : rows.length = 0
      · rw [dif_pos hl, JsQ.toRat_ofInt]
        norm_num
      · rw [dif_neg hl, JsQ.toRat_divPos, toRat_foldl_add, JsQ.toRat_ofInt]
        have hmall : ∀ p ∈ qs.map JsQ.toRat, 0 ≤ p ∧ p ≤ 1 := by
          intro p hp
          obtain ⟨q, hqmem, rfl⟩ := List.mem_map.mp hp
          exact hqs q hqmem
        obtain ⟨hs0, hs1⟩ := sum_unit_bounds (qs.map JsQ.toRat) hmall
        have hlpos : (0 : ℚ) < (rows.length : ℚ) := by
          exact_mod_cast Nat.pos_of_ne_zero hl
        constructor
        · apply div_nonneg _ (le_of_lt hlpos)
          push_cast
          linarith
        · rw [div_le_one hlpos]
          have hql : ((qs.map JsQ.toRat).length : ℚ) = (rows.length : ℚ) := by
            rw [List.length_map]
            exact_mod_cast congrArg (fun n : ℕ => (n : ℚ)) hlen
          push_cast
          push_cast at hql
          linarith
    unfold docPointFrom
    rw [hdb]
    apply scoreOK_fixed5
    all_goals
      have hbonus : 0 ≤ (if docBalanced h rows = true then JsQ.frac 1 10 (by decide)
          else JsQ.ofInt 0).toRat ∧
          (if docBalanced h rows = true then JsQ.frac 1 10 (by decide)
          else JsQ.ofInt 0).toRat ≤ 1 / 10 := by
        split
        · rw [JsQ.toRat_frac]
          norm_num
        · rw [JsQ.toRat_ofInt]
          norm_num
    all_goals
      have hbaseb : 0 ≤ ((hq0.add (if hl : rows.length = 0 then JsQ.ofInt 0
          else (qs.foldl JsQ.add (JsQ.ofInt 0)).divPos rows.length
            (Nat.pos_of_ne_zero hl))).divPos 2 (by decide)).toRat ∧
          ((hq0.add (if hl : rows.length = 0 then JsQ.ofInt 0
          else (qs.foldl JsQ.add (JsQ.ofInt 0)).divPos rows.length
            (Nat.pos_of_ne_zero hl))).divPos 2 (by decide)).toRat ≤ 1 := by
        rw [JsQ.toRat_divPos, JsQ.toRat_add]
        constructor
        · apply div_nonneg _ (by norm_num)
          linarith [havgb.1]
        · rw [div_le_one (by norm_num : (0 : ℚ) < (2 : ℕ))]
          push_cast
          linarith [havgb.2]
    all_goals
      have hfinb : 0 ≤ ((JsQ.ofInt 1).minQ (((hq0.add (if hl : rows.length = 0 then JsQ.ofInt 0
          else (qs.foldl JsQ.add (JsQ.ofInt 0)).divPos rows.length
            (Nat.pos_of_ne_zero hl))).divPos 2 (by decide)).add
          (if docBalanced h rows = true then JsQ.frac 1 10 (by decide)
          else JsQ.ofInt 0))).toRat ∧
          ((JsQ.ofInt 1).minQ (((hq0.add (if hl : rows.length = 0 then JsQ.ofInt 0
          else (qs.foldl JsQ.add (JsQ.ofInt 0)).divPos rows.length
            (Nat.pos_of_ne_zero hl))).divPos 2 (by decide)).add
          (if docBalanced h rows = true then JsQ.frac 1 10 (by decide)
          else JsQ.ofInt 0))).toRat ≤ 1 := by
        rw [JsQ.toRat_minQ, JsQ.toRat_add, JsQ.toRat_ofInt]
        constructor
        · apply le_min
          · norm_num
          · linarith [hbaseb.1, hbonus.1]
        · push_cast
          exact min_le_left _ _
    · exact (jsRound_unit_bounds _ hfinb.1 hfinb.2).1
    · exact (jsRound_unit_bounds _ hfinb.1 hfinb.2).2

/-- C5 witness: the amended theorem applied at concrete inputs; the stored
points 0.80000 and 0.50000 parse into the unit interval and the resulting
document point is a five-decimal unit-interval string, as is the row point
of a fully populated row. -/
theorem scorePoints_unit_witness :
    scoreInUnit (parseScore "0.80000") = true ∧
    scoreOK (docPointFrom ⟨"0.80000", "100.00", "150.00"⟩ [⟨"0.50000", "50.00"⟩]) = true ∧
    scoreOK (rowPointFrom ⟨"2025-08-05", "COFFEE", "12.34", "USD"⟩) = true :=
  ⟨by decide,
   scorePoints_unit.2.2 ⟨"0.80000", "100.00", "150.00"⟩ [⟨"0.50000", "50.00"⟩] (by decide)
     (by decide),
   scorePoints_unit.1 ⟨"2025-08-05", "COFFEE", "12.34", "USD"⟩⟩

/-- C5 counterexample: docPointFrom applies no clamp from below, so an
adversarial stored header point of -5 yields the string -2.40000, which does
not coerce into the unit interval; the claim as stated over every input is
therefore false for docPointFrom. -/
theorem scorePoints_unit_cex :
    docPointFrom ⟨"-5", "0.00", "0.00"⟩ [] = "-2.40000" ∧
    scoreOK (docPointFrom ⟨"-5", "0.00", "0.00"⟩ []) = false := by
  exact ⟨by decide, by decide⟩

/-! ### Theorems: sumAmounts computes exact integer cents -/

theorem digitsToNat_pair (d1 d2 : Char) :
    digitsToNat [d1, d2] = 10 * digVal d1 + digVal d2 := by
  unfold digitsToNat
  simp [List.foldl]

theorem amountCore_elim (cs : List Char) (h : amountCore cs = true) :
    ∃ ip d1 d2, cs = ip ++ ['.', d1, d2] ∧ ip ≠ [] ∧ (∀ c ∈ ip, isDig c = true) ∧
      isDig d1 = true ∧ isDig d2 = true := by
  unfold amountCore at h
  rw [Bool.and_eq_true] at h
  obtain ⟨h1, h2⟩ := h
  rw [decide_eq_true_iff] at h1
  split at h2
  · next d1 d2 heq =>
    rw [Bool.and_eq_true] at h2
    refine ⟨(cs.span isDig).1, d1, d2, ?_, h1, ?_, h2.1, h2.2⟩
    · rw [← heq, List.span_eq_take_drop]
      exact (List.takeWhile_append_dropWhile isDig cs).symm
    · intro c hc
      rw [List.span_eq_take_drop] at hc
      exact List.mem_takeWhile_imp hc
  · exact absurd h2 (by decide)

theorem centsCore_val (ip : List Char) (d1 d2 : Char) (hip : ∀ c ∈ ip, isDig c = true)
    (hne : ip ≠ []) (h1 : isDig d1 = true) (h2 : isDig d2 = true) :
    centsCore (ip ++ ['.', d1, d2]) =
      (100 * digitsToNat ip + 10 * digVal d1 + digVal d2 : ℤ) := by
  have hspan : (ip ++ ['.', d1, d2]).span isDig = (ip, ['.', d1, d2]) := by
    apply span_app isDig ip ['.', d1, d2] hip
    intro c hc
    simp only [List.head?_cons, Option.mem_def, Option.some.injEq] at hc
    subst hc
    decide
  unfold centsCore
  rw [hspan]
  rfl

theorem matchesAmount_chars (s : String) (h : matchesAmount s = true) :
    (∀ c ∈ s.toList, jsIsWs c = false ∧ c ≠ ',') ∧ s.toList ≠ [] := by
  unfold matchesAmount at h
  cases hsl : s.toList with
  | nil =>
    rw [hsl] at h
    exact absurd h (by decide)
  | cons c rest =>
    rw [hsl] at h
    rw [dropMinus_cons] at h
    constructor
    · intro x hx
      rw [List.mem_cons] at hx
      by_cases hcm : c = '-'
      · rw [if_pos hcm] at h
        obtain ⟨ip, d1, d2, hshape, hne, hdig, hd1, hd2⟩ := amountCore_elim rest h
        rcases hx with hx | hx
        · subst hx
          rw [hcm]
          exact ⟨by decide, by decide⟩
        · rw [hshape, List.mem_append, List.mem_cons, List.mem_cons] at hx
          rcases hx with hx | hx | hx | hx
          · exact ⟨isDig_not_ws (hdig x hx), isDig_ne_comma (hdig x hx)⟩
          · subst hx
            exact ⟨by decide, by decide⟩
          · subst hx
            exact ⟨isDig_not_ws hd1, isDig_ne_comma hd1⟩
          · rw [List.mem_singleton] at hx
            subst hx
            exact ⟨isDig_not_ws hd2, isDig_ne_comma hd2⟩
      · rw [if_neg hcm] at h
        obtain ⟨ip, d1, d2, hshape, hne, hdig, hd1, hd2⟩ := amountCore_elim (c :: rest) h
        have hxmem : x ∈ ip ++ ['.', d1, d2] := by
          rw [← hshape, List.mem_cons]
          exact hx
        rw [List.mem_append, List.mem_cons, List.mem_cons] at hxmem
        rcases hxmem with hx2 | hx2 | hx2 | hx2
        · exact ⟨isDig_not_ws (hdig x hx2), isDig_ne_comma (hdig x hx2)⟩
        · subst hx2
          exact ⟨by decide, by decide⟩
        · subst hx2
          exact ⟨isDig_not_ws hd1, isDig_ne_comma hd1⟩
        · rw [List.mem_singleton] at hx2
          subst hx2
          exact ⟨isDig_not_ws hd2, isDig_ne_comma hd2⟩
    · simp

theorem matchesAmount_parse (s : String) (h : matchesAmount s = true) :
    ∃ q, jsNumber s = some q ∧ q.toRat = (amount2Cents s : ℚ) / 100 := by
  have hch := (matchesAmount_chars s h).1
  have hne := (matchesAmount_chars s h).2
  obtain ⟨c, rest, hsl⟩ : ∃ c rest, s.toList = c :: rest := by
    cases hsl2 : s.toList with
    | nil => exact absurd hsl2 hne
    | cons c r => exact ⟨c, r, rfl⟩
  have hjs : jsNumber s = jsNumberList (c :: rest) := by
    unfold jsNumber
    rw [hsl, trimList_noop _ (fun x hx => (hch x (by rw [hsl]; exact hx)).1), if_neg (by simp)]
  have hmc : amountCore (dropMinus (c :: rest)) = true := by
    unfold matchesAmount at h
    rw [hsl] at h
    exact h
  rw [dropMinus_cons] at hmc
  by_cases hcm : c = '-'
  · subst hcm
    rw [if_pos rfl] at hmc
    obtain ⟨ip, d1, d2, hshape, hnip, hdig, hd1, hd2⟩ := amountCore_elim rest hmc
    have hfp : ∀ x ∈ [d1, d2], isDig x = true := by
      intro x hx
      rw [List.mem_cons, List.mem_singleton] at hx
      rcases hx with hx | hx <;> subst hx <;> assumption
    have hcents : amount2Cents s = -(100 * (digitsToNat ip : ℤ) + 10 * digVal d1 + digVal d2) := by
      unfold amount2Cents
      rw [hsl]
      show (if ('-' : Char) = '-' then -(centsCore rest) else centsCore ('-' :: rest)) = _
      rw [if_pos rfl, hshape, centsCore_val ip d1 d2 hdig hnip hd1 hd2]
    rw [hjs, hshape, jsNumberList_core_neg ip [d1, d2] hdig hfp hnip]
    refine ⟨_, rfl, ?_⟩
    rw [JsQ.toRat_neg, toRat_mant, digitsToNat_pair, hcents]
    simp only [List.length_cons, List.length_nil]
    push_cast
    ring
  · rw [if_neg hcm] at hmc
    obtain ⟨ip, d1, d2, hshape, hnip, hdig, hd1, hd2⟩ := amountCore_elim (c :: rest) hmc
    have hfp : ∀ x ∈ [d1, d2], isDig x = true := by
      intro x hx
      rw [List.mem_cons, List.mem_singleton] at hx
      rcases hx with hx | hx <;> subst hx <;> assumption
    have hcents : amount2Cents s = (100 * (digitsToNat ip : ℤ) + 10 * digVal d1 + digVal d2) := by
      unfold amount2Cents
      rw [hsl]
      show (if c = '-' then -(centsCore rest) else centsCore (c :: rest)) = _
      rw [if_neg hcm, hshape, centsCore_val ip d1 d2 hdig hnip hd1 hd2]
    rw [hjs, hshape, jsNumberList_core ip [d1, d2] hdig hfp hnip]
    refine ⟨_, rfl, ?_⟩
    rw [toRat_mant, digitsToNat_pair, hcents]
    simp only [List.length_cons, List.length_nil]
    push_cast
    ring

theorem amountToNumber_matches (v : String) (h : matchesAmount v = true) :
    (amountToNumber v).toRat = (amount2Cents v : ℚ) / 100 ∧
    jsRound ((amountToNumber v).mulPow10 2) = amount2Cents v := by
  obtain ⟨q, hq, hv⟩ := matchesAmount_parse v h
  have hvne : v ≠ "" := by
    intro he
    subst he
    exact absurd h (by decide)
  have hnc : ∀ c ∈ v.toList, c ≠ ',' := fun c hc => ((matchesAmount_chars v h).1 c hc).2
  unfold amountToNumber
  rw [jsOr_ne _ _ hvne, stripCommas_noop v hnc, hq]
  constructor
  · show ((JsQ.ofInt (jsRound (q.mulPow10 2))).divPow10 2).toRat = _
    rw [cents_of_centQ q _ hv, JsQ.toRat_divPow10, JsQ.toRat_ofInt]
    norm_num
  · show jsRound (((JsQ.ofInt (jsRound (q.mulPow10 2))).divPow10 2).mulPow10 2) = _
    rw [cents_of_centQ q _ hv]
    apply cents_of_centQ
    rw [JsQ.toRat_divPow10, JsQ.toRat_ofInt]
    norm_num

theorem foldl_add_int (g : String → ℤ) (l : List String) (a : ℤ) :
    l.foldl (fun acc v => acc + g v) a = a + (l.map g).sum := by
  induction l generalizing a with
  | nil => simp
  | cons v t ih =>
    rw [List.foldl_cons, ih, List.map_cons, List.sum_cons]
    ring

theorem map_int_congr (l : List String) (f g : String → ℤ) (h : ∀ v ∈ l, f v = g v) :
    l.map f = l.map g := by
  induction l with
  | nil => rfl
  | cons v t ih =>
    rw [List.map_cons, List.map_cons, h v (by simp), ih (fun x hx => h x (by simp [hx]))]

theorem cents_abs_small (c : ℤ) (hc : |c| < 10 ^ 23) :
    |((JsQ.ofInt c).divPow10 2).toRat| < 10 ^ 21 := by
  rw [JsQ.toRat_divPow10, JsQ.toRat_ofInt]
  rw [show (10 : ℚ) ^ 2 = 100 from by norm_num, abs_div,
    abs_of_pos (by norm_num : (0 : ℚ) < 100), div_lt_iff (by norm_num : (0 : ℚ) < 100)]
  calc |(c : ℚ)| = ((|c| : ℤ) : ℚ) := by rw [Int.cast_abs]
    _ < ((10 ^ 23 : ℤ) : ℚ) := by exact_mod_cast hc
    _ = 10 ^ 21 * 100 := by norm_num

theorem cents_round_abs (c : ℤ) :
    jsRound (((JsQ.ofInt c).divPow10 2).absQ.mulPow10 2) = |c| := by
  rw [jsRound_eq, JsQ.toRat_mulPow10, JsQ.toRat_absQ, JsQ.toRat_divPow10, JsQ.toRat_ofInt]
  have : |(c : ℚ) / 10 ^ 2| * 10 ^ 2 = ((|c| : ℤ) : ℚ) := by
    rw [abs_div, abs_of_pos (by norm_num : (0 : ℚ) < 10 ^ 2), Int.cast_abs]
    ring
  rw [this, floor_intCast_add_half]

theorem toFixed2_cents_fmt (c : ℤ) (hc : |c| < 10 ^ 23) :
    jsToFixed 2 ((JsQ.ofInt c).divPow10 2) = fmtCentsSpec c := by
  have habs := cents_abs_small c hc
  have hround := cents_round_abs c
  have ht : (|c|).toNat = c.natAbs := by
    rw [Int.abs_eq_natAbs]
    exact Int.toNat_natCast _
  have hsgn : (((JsQ.ofInt c).divPow10 2).lt (JsQ.ofInt 0) = true) ↔ c < 0 := by
    rw [JsQ.lt_iff, JsQ.toRat_ofInt, JsQ.toRat_divPow10, JsQ.toRat_ofInt]
    push_cast
    rw [div_lt_iff (by norm_num : (0 : ℚ) < 10 ^ 2)]
    constructor
    · intro hlt
      by_contra hge
      push_neg at hge
      have : (0 : ℚ) ≤ (c : ℚ) := by exact_mod_cast hge
      nlinarith
    · intro hlt
      have : (c : ℚ) < 0 := by exact_mod_cast hlt
      nlinarith
  rw [jsToFixed_eq_small 2 _ habs, hround, ht]
  unfold fmtCentsSpec decRepr strOf
  rcases hcs : ((JsQ.ofInt c).divPow10 2).lt (JsQ.ofInt 0) with hv | hv
  · rw [if_neg (by simp), if_neg (fun hneg => by simp [hsgn.mpr hneg] at hcs)]
    apply String.ext
    show ([] : List Char) ++ fixedDigits c.natAbs 2 =
      ([] : List Char) ++ decReprL (c.natAbs / 100) ++ ['.'] ++ padZeros 2 (decReprL (c.natAbs % 100))
    rw [fixedDigits_eq]
    simp [List.append_assoc]
  · rw [if_pos rfl, if_pos (hsgn.mp hcs)]
    apply String.ext
    show ['-'] ++ fixedDigits c.natAbs 2 =
      ['-'] ++ decReprL (c.natAbs / 100) ++ ['.'] ++ padZeros 2 (decReprL (c.natAbs % 100))
    rw [fixedDigits_eq]
    simp [List.append_assoc]

theorem sumAmounts_toFixed (vals : List String)
    (hm : ∀ v ∈ vals, matchesAmount v = true) :
    sumAmounts vals = jsToFixed 2 ((JsQ.ofInt ((vals.map amount2Cents).sum)).divPow10 2) := by
  have h1 : vals.foldl (fun acc v => acc + jsRound ((amountToNumber v).mulPow10 2)) 0
      = (vals.map amount2Cents).sum := by
    rw [foldl_add_int (fun v => jsRound ((amountToNumber v).mulPow10 2)) vals 0,
      map_int_congr vals _ amount2Cents (fun v hv => (amountToNumber_matches v (hm v hv)).2)]
    ring
  show jsToFixed 2 ((JsQ.ofInt
      (vals.foldl (fun acc v => acc + jsRound ((amountToNumber v).mulPow10 2)) 0)).divPow10 2)
    = _
  rw [h1]

theorem jsToFixed_congr_small (f : ℕ) (x y : JsQ) (hx : |x.toRat| < 10 ^ 21)
    (hv : x.toRat = y.toRat) : jsToFixed f x = jsToFixed f y := by
  have hy : |y.toRat| < 10 ^ 21 := by rw [← hv]; exact hx
  rw [jsToFixed_eq_small f x hx, jsToFixed_eq_small f y hy]
  have hlt : x.lt (JsQ.ofInt 0) = y.lt (JsQ.ofInt 0) := by
    cases hyl : y.lt (JsQ.ofInt 0)
    · rw [JsQ.lt_false_iff] at hyl ⊢
      rw [hv]
      exact hyl
    · rw [JsQ.lt_iff] at hyl ⊢
      rw [hv]
      exact hyl
  have hr : jsRound (x.absQ.mulPow10 f) = jsRound (y.absQ.mulPow10 f) := by
    rw [jsRound_eq, jsRound_eq, JsQ.toRat_mulPow10, JsQ.toRat_mulPow10, JsQ.toRat_absQ,
      JsQ.toRat_absQ, hv]
  rw [hlt, hr]

theorem aTN_fixed2_abs (c : ℤ) (hc : |c| < 10 ^ 23) :
    |(amountToNumber (jsToFixed 2 ((JsQ.ofInt c).divPow10 2))).toRat| < 10 ^ 21 := by
  rw [amountToNumber_cents c hc]
  have h2 := cents_abs_small c hc
  rw [JsQ.toRat_divPow10, JsQ.toRat_ofInt,
    show ((10 : ℚ) ^ 2) = 100 from by norm_num] at h2
  exact h2

theorem abs_listSum_le (l : List ℤ) : |l.sum| ≤ (l.map (fun x => |x|)).sum := by
  induction l with
  | nil => simp
  | cons x t ih =>
    rw [List.sum_cons, List.map_cons, List.sum_cons]
    calc |x + t.sum| ≤ |x| + |t.sum| := abs_add x t.sum
      _ ≤ |x| + (t.map (fun y => |y|)).sum := by linarith

theorem absCents_map (vals : List String) :
    ((vals.map amount2Cents).map (fun x => |x|)).sum
      = (vals.map (fun v => |amount2Cents v|)).sum := by
  rw [List.map_map]
  rfl

/-- C7 (amended): for every list of amount strings already in the signed
two-decimal shape whose absolute cent values sum below 10^15, sumAmounts
equals the exact integer-cent sum formatted back to two decimals with no
drift.  The bound keeps every per-amount cent value, every partial sum and
the total well inside the range a binary64 double represents exactly (under
2^53 cents, with margin for the parse-and-scale rounding), so the statement
holds of the real double pipeline, not only of the exact model; the original
claim's unbounded "for every list" fails at the toFixed exponential
fallback. -/
theorem sumAmounts_exact (vals : List String)
    (hm : ∀ v ∈ vals, matchesAmount v = true)
    (hs : (vals.map (fun v => |amount2Cents v|)).sum < 10 ^ 15) :
    sumAmounts vals = fmtCentsSpec ((vals.map amount2Cents).sum) := by
  have habs : |(vals.map amount2Cents).sum| < 10 ^ 23 := by
    calc |(vals.map amount2Cents).sum|
        ≤ ((vals.map amount2Cents).map (fun x => |x|)).sum := abs_listSum_le _
      _ = (vals.map (fun v => |amount2Cents v|)).sum := absCents_map vals
      _ < 10 ^ 15 := hs
      _ < 10 ^ 23 := by norm_num
  rw [sumAmounts_toFixed vals hm]
  exact toFixed2_cents_fmt _ habs

/-- C7 witness: the amended theorem applied at the spec's own example list,
giving the exact answer "6.68". -/
theorem sumAmounts_exact_witness :
    sumAmounts ["10.00", "-3.33", "0.01"] = "6.68" := by
  have h := sumAmounts_exact ["10.00", "-3.33", "0.01"] (by decide) (by decide)
  rw [h]
  decide

/-- C7 counterexample: a single amount string in the two-decimal shape whose
value reaches 10^21, where sumAmounts emits the toFixed exponential form
rather than the exact integer-cent rendering claimed for every list. -/
theorem sumAmounts_exact_cex :
    matchesAmount "1000000000000000000000.00" = true ∧
    sumAmounts ["1000000000000000000000.00"]
      ≠ fmtCentsSpec ((["1000000000000000000000.00"].map amount2Cents).sum) := by
  decide

theorem docBalanced_centEq (h : DPHeader) (rows : List DPRow)
    (hmo : matchesAmount h.opening_balance = true)
    (hmc : matchesAmount h.closing_balance = true)
    (hmr : ∀ r ∈ rows, matchesAmount r.amount = true)
    (hS : |rowCents rows| < 10 ^ 23)
    (hoS : |amount2Cents h.opening_balance + rowCents rows| < 10 ^ 23)
    (hc : |amount2Cents h.closing_balance| < 10 ^ 23) :
    docBalanced h rows = specCentEq h rows := by
  have hmm : ∀ v ∈ rows.map (fun r : DPRow => r.amount), matchesAmount v = true := by
    intro v hv
    obtain ⟨r, hr, rfl⟩ := List.mem_map.mp hv
    exact hmr r hr
  have hS2 : ((rows.map (fun r : DPRow => r.amount)).map amount2Cents).sum = rowCents rows := by
    rw [List.map_map]
    rfl
  show equalsMoney
    (sumAmounts [h.opening_balance, sumAmounts (rows.map (fun r => r.amount))])
    h.closing_balance = specCentEq h rows
  rw [sumAmounts_toFixed _ hmm, hS2]
  have htot : (amountToNumber (jsToFixed 2 ((JsQ.ofInt (rowCents rows)).divPow10 2))).toRat
      = ((rowCents rows : ℤ) : ℚ) / 100 := amountToNumber_cents _ hS
  have houter : sumAmounts [h.opening_balance,
        jsToFixed 2 ((JsQ.ofInt (rowCents rows)).divPow10 2)]
      = jsToFixed 2 ((JsQ.ofInt
          (amount2Cents h.opening_balance + rowCents rows)).divPow10 2) := by
    show jsToFixed 2 ((JsQ.ofInt
      ([h.opening_balance, jsToFixed 2 ((JsQ.ofInt (rowCents rows)).divPow10 2)].foldl
        (fun acc v => acc + jsRound ((amountToNumber v).mulPow10 2)) 0)).divPow10 2) = _
    have hfold : [h.opening_balance,
          jsToFixed 2 ((JsQ.ofInt (rowCents rows)).divPow10 2)].foldl
          (fun acc v => acc + jsRound ((amountToNumber v).mulPow10 2)) 0
        = amount2Cents h.opening_balance + rowCents rows := by
      simp only [List.foldl_cons, List.foldl_nil]
      rw [(amountToNumber_matches _ hmo).2, cents_of_centQ _ _ htot]
      ring
    rw [hfold]
  rw [houter]
  unfold equalsMoney
  have h1 : jsToFixed 2 (amountToNumber (jsToFixed 2 ((JsQ.ofInt
        (amount2Cents h.opening_balance + rowCents rows)).divPow10 2)))
      = jsToFixed 2 ((JsQ.ofInt
        (amount2Cents h.opening_balance + rowCents rows)).divPow10 2) := by
    apply jsToFixed_congr_small 2 _ _ (aTN_fixed2_abs _ hoS)
    rw [amountToNumber_cents _ hoS, JsQ.toRat_divPow10, JsQ.toRat_ofInt]
    norm_num
  have h2 : jsToFixed 2 (amountToNumber h.closing_balance)
      = jsToFixed 2 ((JsQ.ofInt (amount2Cents h.closing_balance)).divPow10 2) := by
    apply jsToFixed_congr_small
    · rw [(amountToNumber_matches _ hmc).1]
      have h3 := cents_abs_small _ hc
      rw [JsQ.toRat_divPow10, JsQ.toRat_ofInt,
        show ((10 : ℚ) ^ 2) = 100 from by norm_num] at h3
      exact h3
    · rw [(amountToNumber_matches _ hmc).1, JsQ.toRat_divPow10, JsQ.toRat_ofInt]
      norm_num
  rw [h1, h2]
  unfold specCentEq
  by_cases heq : amount2Cents h.opening_balance + rowCents rows
      = amount2Cents h.closing_balance
  · rw [heq]
    simp
  · have hne : jsToFixed 2 ((JsQ.ofInt
          (amount2Cents h.opening_balance + rowCents rows)).divPow10 2)
        ≠ jsToFixed 2 ((JsQ.ofInt (amount2Cents h.closing_balance)).divPow10 2) :=
      fun he => heq (toFixed2_cents_inj _ _ hoS hc he)
    simp [heq, hne]

/-- C6 (amended): whenever the stored balances and row amounts are in the
signed two-decimal shape, the opening cents plus the summed absolute row
cents stay below 10^15, and the closing cents stay below 10^15 in
magnitude, footerStatsFrom reports balanced exactly under cent equality and
docPointFrom equals the spec formula min(1, (header point + mean row
point)/2 + 0.1 cent-equality bonus) rounded to five decimals.  The 10^15
bound keeps every cent quantity the reconciliation handles inside the range
a binary64 double represents exactly, so the equivalence holds of the real
double pipeline; with larger balances the code's string comparison can
identify cent-unequal values that parse to one double (or, at the 10^21
threshold, to one exponential rendering — see the counterexample), so the
unqualified claim fails. -/
theorem docPoint_formula (h : DPHeader) (rows : List DPRow)
    (hmo : matchesAmount h.opening_balance = true)
    (hmc : matchesAmount h.closing_balance = true)
    (hmr : ∀ r ∈ rows, matchesAmount r.amount = true)
    (hbo : |amount2Cents h.opening_balance|
      + (rows.map (fun r => |amount2Cents r.amount|)).sum < 10 ^ 15)
    (hbc : |amount2Cents h.closing_balance| < 10 ^ 15) :
    (footerStatsFrom h rows).balanced = specCentEq h rows ∧
    docPointFrom h rows = specDocPoint h rows := by
  have habsS : |rowCents rows| ≤ (rows.map (fun r => |amount2Cents r.amount|)).sum := by
    calc |rowCents rows|
        ≤ ((rows.map (fun r => amount2Cents r.amount)).map (fun x => |x|)).sum :=
        abs_listSum_le _
      _ = (rows.map (fun r => |amount2Cents r.amount|)).sum := by
        rw [List.map_map]
        rfl
  have h0 : (0 : ℤ) ≤ |amount2Cents h.opening_balance| := abs_nonneg _
  have hS : |rowCents rows| < 10 ^ 23 := by
    calc |rowCents rows| ≤ (rows.map (fun r => |amount2Cents r.amount|)).sum := habsS
      _ < 10 ^ 15 := by linarith
      _ < 10 ^ 23 := by norm_num
  have hoS : |amount2Cents h.opening_balance + rowCents rows| < 10 ^ 23 := by
    calc |amount2Cents h.opening_balance + rowCents rows|
        ≤ |amount2Cents h.opening_balance| + |rowCents rows| := abs_add _ _
      _ ≤ |amount2Cents h.opening_balance|
          + (rows.map (fun r => |amount2Cents r.amount|)).sum := by linarith
      _ < 10 ^ 15 := hbo
      _ < 10 ^ 23 := by norm_num
  have hc : |amount2Cents h.closing_balance| < 10 ^ 23 := by
    calc |amount2Cents h.closing_balance| < 10 ^ 15 := hbc
      _ < 10 ^ 23 := by norm_num
  have hb := docBalanced_centEq h rows hmo hmc hmr hS hoS hc
  refine ⟨hb, ?_⟩
  unfold docPointFrom specDocPoint
  simp only [hb]

/-- C6 witness: the amended theorem applied at the spec's reconciliation
example, where the bonus is granted and the doc point is 0.75000. -/
theorem docPoint_formula_witness :
    ((footerStatsFrom ⟨"0.80000", "100.00", "150.00"⟩ [⟨"0.50000", "50.00"⟩]).balanced
        = specCentEq ⟨"0.80000", "100.00", "150.00"⟩ [⟨"0.50000", "50.00"⟩] ∧
      docPointFrom ⟨"0.80000", "100.00", "150.00"⟩ [⟨"0.50000", "50.00"⟩]
        = specDocPoint ⟨"0.80000", "100.00", "150.00"⟩ [⟨"0.50000", "50.00"⟩]) ∧
    (footerStatsFrom ⟨"0.80000", "100.00", "150.00"⟩ [⟨"0.50000", "50.00"⟩]).balanced = true ∧
    docPointFrom ⟨"0.80000", "100.00", "150.00"⟩ [⟨"0.50000", "50.00"⟩] = "0.75000" :=
  ⟨docPoint_formula ⟨"0.80000", "100.00", "150.00"⟩ [⟨"0.50000", "50.00"⟩]
      (by decide) (by decide) (by decide) (by decide) (by decide),
    by decide, by decide⟩

/-- C6 counterexample: balances at the 10^21 toFixed threshold format to the
same exponential string, so the code grants the bonus and reports balanced
although the cent totals differ by 50 cents. -/
theorem docPoint_formula_cex :
    (footerStatsFrom
        ⟨"0", "1000000000000000000000.50", "1000000000000000000000.00"⟩ []).balanced = true ∧
    specCentEq ⟨"0", "1000000000000000000000.50", "1000000000000000000000.00"⟩ [] = false ∧
    docPointFrom ⟨"0", "1000000000000000000000.50", "1000000000000000000000.00"⟩ []
      = "0.10000" := by
  decide

theorem stage3_err (w : List String) (e : String) :
    stage3 w (Except.error e)
      = Except.error (String.intercalate " | " (w ++ ["OCR failed: " ++ e])) := rfl

theorem stage3_ok (w : List String) (t : String) :
    stage3 w (Except.ok t)
      = Except.ok ⟨t, w ++ (if t = "" then [] else ["OCR used (tesseract.js)."]), "ocr"⟩ := rfl

theorem stage2_ok (w : List String) (t : String) (s3 : Except String String)
    (h : accepts t = true) :
    stage2 w (Except.ok t) s3 = Except.ok ⟨t, w, "pdfjs-dist"⟩ := by
  simp [stage2, h]

theorem stage2_fail (w : List String) (s2 s3 : Except String String)
    (h : stageFails s2 = true) :
    stage2 w s2 s3 = stage3 (w ++
      [stageWarn "Low text from pdfjs-dist; trying OCR." "pdfjs-dist text failed: " s2]) s3 := by
  rcases s2 with e2 | t2
  · rfl
  · have ha : accepts t2 = false := by
      have h2 := h
      unfold stageFails at h2
      simpa using h2
    simp [stage2, ha, stageWarn]

theorem parsePdfSmart_ok1 (t : String) (s2 s3 : Except String String)
    (h : accepts t = true) :
    parsePdfSmart (Except.ok t) s2 s3 = Except.ok ⟨t, [], "pdf-parse"⟩ := by
  simp [parsePdfSmart, h]

theorem parsePdfSmart_fail1 (s1 s2 s3 : Except String String) (h : stageFails s1 = true) :
    parsePdfSmart s1 s2 s3 = stage2
      [stageWarn "Low text from pdf-parse; trying pdfjs-dist." "pdf-parse failed: " s1] s2 s3 := by
  rcases s1 with e1 | t1
  · rfl
  · have ha : accepts t1 = false := by
      have h2 := h
      unfold stageFails at h2
      simpa using h2
    simp [parsePdfSmart, ha, stageWarn]

theorem stageFails_false {s : Except String String} (h : ¬ stageFails s = true) :
    ∃ t, s = Except.ok t ∧ accepts t = true := by
  rcases s with e | t
  · exact absurd rfl h
  · refine ⟨t, rfl, ?_⟩
    by_contra ha
    simp only [Bool.not_eq_true] at ha
    exact h (by simp [stageFails, ha])

/-- C8: parsePdfSmart errors exactly when stage 1 and stage 2 each threw or
returned below-threshold text and the OCR stage threw; the error aggregates
the accumulated warnings in order, joined by " | "; whenever a stage yields
usable text — including below-threshold text at the terminal OCR stage — a
result carrying that text and the accumulated warnings is returned. -/
theorem parsePdfSmart_stages (s1 s2 s3 : Except String String) :
    ((∃ e, parsePdfSmart s1 s2 s3 = Except.error e) ↔
      (stageFails s1 = true ∧ stageFails s2 = true ∧ ∃ e₃, s3 = Except.error e₃)) ∧
    (∀ e₃, s3 = Except.error e₃ → stageFails s1 = true → stageFails s2 = true →
      parsePdfSmart s1 s2 s3 = Except.error (String.intercalate " | "
        [stageWarn "Low text from pdf-parse; trying pdfjs-dist." "pdf-parse failed: " s1,
          stageWarn "Low text from pdfjs-dist; trying OCR." "pdfjs-dist text failed: " s2,
          "OCR failed: " ++ e₃])) ∧
    (∀ t, s3 = Except.ok t → stageFails s1 = true → stageFails s2 = true →
      parsePdfSmart s1 s2 s3 = Except.ok ⟨t,
        [stageWarn "Low text from pdf-parse; trying pdfjs-dist." "pdf-parse failed: " s1,
          stageWarn "Low text from pdfjs-dist; trying OCR." "pdfjs-dist text failed: " s2]
          ++ (if t = "" then [] else ["OCR used (tesseract.js)."]), "ocr"⟩) ∧
    (∀ t, s1 = Except.ok t → accepts t = true →
      parsePdfSmart s1 s2 s3 = Except.ok ⟨t, [], "pdf-parse"⟩) ∧
    (∀ t, s2 = Except.ok t → accepts t = true → stageFails s1 = true →
      parsePdfSmart s1 s2 s3 = Except.ok ⟨t,
        [stageWarn "Low text from pdf-parse; trying pdfjs-dist." "pdf-parse failed: " s1],
        "pdfjs-dist"⟩) := by
  refine ⟨⟨?_, ?_⟩, ?_, ?_, ?_, ?_⟩
  · rintro ⟨e, he⟩
    by_cases h1 : stageFails s1 = true
    · by_cases h2 : stageFails s2 = true
      · refine ⟨h1, h2, ?_⟩
        rcases s3 with e₃ | t3
        · exact ⟨e₃, rfl⟩
        · rw [parsePdfSmart_fail1 _ _ _ h1, stage2_fail _ _ _ h2, stage3_ok] at he
          exact absurd he (by simp)
      · obtain ⟨t2, rfl, ha2⟩ := stageFails_false h2
        rw [parsePdfSmart_fail1 _ _ _ h1, stage2_ok _ _ _ ha2] at he
        exact absurd he (by simp)
    · obtain ⟨t1, rfl, ha1⟩ := stageFails_false h1
      rw [parsePdfSmart_ok1 _ _ _ ha1] at he
      exact absurd he (by simp)
  · rintro ⟨h1, h2, e₃, rfl⟩
    rw [parsePdfSmart_fail1 _ _ _ h1, stage2_fail _ _ _ h2, stage3_err]
    exact ⟨_, rfl⟩
  · intro e₃ h3 h1 h2
    subst h3
    rw [parsePdfSmart_fail1 _ _ _ h1, stage2_fail _ _ _ h2, stage3_err]
    rfl
  · intro t h3 h1 h2
    subst h3
    rw [parsePdfSmart_fail1 _ _ _ h1, stage2_fail _ _ _ h2, stage3_ok]
    rfl
  · intro t h1 ha
    subst h1
    exact parsePdfSmart_ok1 _ _ _ ha
  · intro t h2 ha h1
    subst h2
    rw [parsePdfSmart_fail1 _ _ _ h1, stage2_ok _ _ _ ha]

/-- C8 witness: the theorem applied at two concrete stage traces, one where
everything fails and the joined warning chain is raised, one where OCR
returns short text and a result is still produced. -/
theorem parsePdfSmart_stages_witness :
    parsePdfSmart (Except.error "boom") (Except.ok "short") (Except.error "no ocr")
      = Except.error
        "pdf-parse failed: boom | Low text from pdfjs-dist; trying OCR. | OCR failed: no ocr" ∧
    parsePdfSmart (Except.error "boom") (Except.error "dead") (Except.ok "x")
      = Except.ok ⟨"x",
        ["pdf-parse failed: boom", "pdfjs-dist text failed: dead", "OCR used (tesseract.js)."],
        "ocr"⟩ := by
  constructor
  · have h := (parsePdfSmart_stages (Except.error "boom") (Except.ok "short")
        (Except.error "no ocr")).2.1 "no ocr" rfl (by decide) (by decide)
    rw [h]
    rfl
  · have h := (parsePdfSmart_stages (Except.error "boom") (Except.error "dead")
        (Except.ok "x")).2.2.1 "x" rfl (by decide) (by decide)
    rw [h]
    rfl

/-- C9: parseCsv scores each candidate row set per row (+2 for an
ISO-shaped or digit-bearing date, +1 for a signed two-decimal amount, +1
for a lettered description), returns the candidate with the higher score,
and breaks score ties toward the candidate with more rows (the header
candidate on a full tie). -/
theorem parseCsv_selection (hr : List (List (String × String))) (sr : List (List String)) :
    (parseCsv hr sr = mappedHeader hr ∨ parseCsv hr sr = mappedSimple sr) ∧
    scoreRows (parseCsv hr sr)
      = max (scoreRows (mappedHeader hr)) (scoreRows (mappedSimple sr)) ∧
    (scoreRows (mappedHeader hr) = scoreRows (mappedSimple sr) →
      (parseCsv hr sr).length = max (mappedHeader hr).length (mappedSimple sr).length) ∧
    (∀ rows : List CsvTxn, scoreRows rows = (rows.map scoreRow).sum) := by
  have hsum : ∀ (l : List CsvTxn) (a : ℕ),
      l.foldl (fun s r => s + scoreRow r) a = a + (l.map scoreRow).sum := by
    intro l
    induction l with
    | nil => intro a; simp
    | cons r t ih =>
      intro a
      rw [List.foldl_cons, ih, List.map_cons, List.sum_cons]
      ring
  have hsum0 : ∀ rows : List CsvTxn, scoreRows rows = (rows.map scoreRow).sum := by
    intro rows
    show rows.foldl (fun s r => s + scoreRow r) 0 = _
    rw [hsum rows 0]
    ring
  have hdef : parseCsv hr sr =
      if scoreRows (mappedSimple sr) > scoreRows (mappedHeader hr) ∨
          (scoreRows (mappedSimple sr) = scoreRows (mappedHeader hr) ∧
            (mappedSimple sr).length > (mappedHeader hr).length)
      then mappedSimple sr else mappedHeader hr := rfl
  by_cases hc : scoreRows (mappedSimple sr) > scoreRows (mappedHeader hr) ∨
      (scoreRows (mappedSimple sr) = scoreRows (mappedHeader hr) ∧
        (mappedSimple sr).length > (mappedHeader hr).length)
  · rw [hdef, if_pos hc]
    refine ⟨Or.inr rfl, ?_, ?_, hsum0⟩
    · rcases hc with h | ⟨he, _⟩
      · omega
      · omega
    · intro he
      rcases hc with h | ⟨_, hl⟩
      · omega
      · omega
  · rw [hdef, if_neg hc]
    push_neg at hc
    refine ⟨Or.inl rfl, ?_, ?_, hsum0⟩
    · omega
    · intro he
      have := hc.2 he.symm
      omega

/-- C9 witness: the theorem applied at a one-row statement offered both with
and without headers; the scores tie at 4 and the lengths tie at 1, and the
header candidate is returned. -/
theorem parseCsv_selection_witness :
    (parseCsv [[("date", "2025-08-05"), ("description", "COFFEE"), ("amount", "12.34")]]
        [["date", "description", "amount"], ["2025-08-05", "COFFEE", "12.34"]]
      = mappedHeader [[("date", "2025-08-05"), ("description", "COFFEE"), ("amount", "12.34")]] ∨
      parseCsv [[("date", "2025-08-05"), ("description", "COFFEE"), ("amount", "12.34")]]
        [["date", "description", "amount"], ["2025-08-05", "COFFEE", "12.34"]]
      = mappedSimple [["date", "description", "amount"], ["2025-08-05", "COFFEE", "12.34"]]) ∧
    (parseCsv [[("date", "2025-08-05"), ("description", "COFFEE"), ("amount", "12.34")]]
        [["date", "description", "amount"], ["2025-08-05", "COFFEE", "12.34"]]).length
      = max (mappedHeader
          [[("date", "2025-08-05"), ("description", "COFFEE"), ("amount", "12.34")]]).length
        (mappedSimple [["date", "description", "amount"], ["2025-08-05", "COFFEE", "12.34"]]).length :=
  ⟨(parseCsv_selection [[("date", "2025-08-05"), ("description", "COFFEE"), ("amount", "12.34")]]
      [["date", "description", "amount"], ["2025-08-05", "COFFEE", "12.34"]]).1,
    (parseCsv_selection [[("date", "2025-08-05"), ("description", "COFFEE"), ("amount", "12.34")]]
      [["date", "description", "amount"], ["2025-08-05", "COFFEE", "12.34"]]).2.2.1 (by decide)⟩

/-- C10: on a concrete buffer the public parseCsv interface returns dates
outside the canonical shapes: the month-first cell 07/31/2025 is rearranged
into 2025-31-07 (a month component of 31), and an unmatched cell comes back
as the trimmed raw text, neither ISO-shaped nor the sentinel unknown. -/
theorem parseCsv_raw_dates :
    (parseCsvBuf
        "date,description,amount\n07/31/2025,COFFEE SHOP,12.34\nnot a date,TEA HOUSE,5.00").map
      (fun r => r.date) = ["2025-31-07", "not a date"] ∧
    toIsoDate "07/31/2025" = "2025-31-07" ∧
    isoShape "not a date" = false ∧ "not a date" ≠ "unknown" ∧
    isoShape "2025-31-07" = true := by
  decide
